import Mathlib

/-!
Verification of the event-extraction / chunked-summarization / message-delivery
pipeline of `daily_scraper.py`.

The Python program is shallowly embedded: pure functions become Lean functions
over `List Char` / `String` / `Nat`; the outbound network calls (summarization
provider, messaging provider, status poll) are passed in as oracle functions;
exceptions become `Option` / explicit outcome constructors.  Python line
numbers in the doc comments refer to `src/daily_scraper.py`.
-/

/-! ### Chunker: `split_message` (lines 184-202) -/

/-- Python `message.split('\n')` over a character list: splits at every
newline, keeping empty segments; the empty input yields one empty segment. -/
def splitOnNl : List Char → List (List Char)
  | [] => [[]]
  | c :: rest =>
    if c = '\n' then [] :: splitOnNl rest
    else
      match splitOnNl rest with
      | [] => [[c]]
      | g :: gs => (c :: g) :: gs

/-- Python `'\n'.join(parts)` over character lists. -/
def joinNl : List (List Char) → List Char
  | [] => []
  | [g] => g
  | g :: gs => g ++ '\n' :: joinNl gs

/-- The greedy accumulation loop of `split_message` (lines 190-200): `cur` is
`current_chunk` (a list of lines), `curLen` is `current_length`, `chunks` the
accumulator of already-joined chunks.  Python's overflow test is
`current_length + len(line) + 1 > chunk_size`; on overflow the current chunk
is closed (joined with newlines) even when it is empty, and the line starts a
fresh chunk with `current_length = len(line)`.  After the loop a non-empty
`current_chunk` is appended (lines 199-200). -/
def splitMessageGo (chunkSize : Nat) :
    List (List Char) → List (List Char) → Nat → List (List Char) → List (List Char)
  | [], cur, _, chunks => if cur = [] then chunks else chunks ++ [joinNl cur]
  | line :: rest, cur, curLen, chunks =>
    if chunkSize < curLen + line.length + 1 then
      splitMessageGo chunkSize rest [line] line.length (chunks ++ [joinNl cur])
    else
      splitMessageGo chunkSize rest (cur ++ [line]) (curLen + line.length + 1) chunks

/-- Model of `split_message(message, chunk_size)` (lines 184-202).  The Python default
for `chunk_size` is 1000; callers in this file always pass it explicitly. -/
def split_message (message : String) (chunk_size : Nat) : List String :=
  (splitMessageGo chunk_size (splitOnNl message.data) [] 0 []).map String.mk

/-- Python `sep.join(parts)` at the `String` level. -/
def joinWith (sep : String) : List String → String
  | [] => ""
  | [s] => s
  | s :: rest => s ++ sep ++ joinWith sep rest

/-- Length of the first line of a message (the first segment of the newline
split); this is what the first overflow test of `split_message` sees. -/
def firstLineLen (message : String) : Nat :=
  ((splitOnNl message.data).headD []).length

/-! #### Chunker lemmas -/

theorem splitOnNl_ne_nil (l : List Char) : splitOnNl l ≠ [] := by
  cases l with
  | nil => simp [splitOnNl]
  | cons c rest =>
    simp only [splitOnNl]
    split
    · simp
    · split <;> simp_all

theorem splitOnNl_no_newline {l : List Char} :
    ∀ g ∈ splitOnNl l, '\n' ∉ g := by
  induction l with
  | nil =>
    intro g hg
    simp [splitOnNl] at hg
    subst hg
    simp
  | cons c rest ih =>
    intro g hg
    simp only [splitOnNl] at hg
    by_cases hc : c = '\n'
    · rw [if_pos hc] at hg
      rcases List.mem_cons.mp hg with h | h
      · subst h; simp
      · exact ih g h
    · rw [if_neg hc] at hg
      rcases heq : splitOnNl rest with _ | ⟨g0, gs⟩
      · exact absurd heq (splitOnNl_ne_nil rest)
      · rw [heq] at hg
        rcases List.mem_cons.mp hg with h | h
        · subst h
          intro hmem
          rcases List.mem_cons.mp hmem with h' | h'
          · exact hc h'.symm
          · exact ih g0 (heq ▸ List.mem_cons_self g0 gs) h'
        · exact ih g (heq ▸ List.mem_cons_of_mem g0 h)

theorem joinNl_cons_of_ne_nil (g : List Char) {gs : List (List Char)} (h : gs ≠ []) :
    joinNl (g :: gs) = g ++ '\n' :: joinNl gs := by
  cases gs with
  | nil => exact absurd rfl h
  | cons g' gs' => rfl

theorem joinNl_splitOnNl (l : List Char) : joinNl (splitOnNl l) = l := by
  induction l with
  | nil => simp [splitOnNl, joinNl]
  | cons c rest ih =>
    simp only [splitOnNl]
    by_cases hc : c = '\n'
    · simp only [if_pos hc]
      rw [joinNl_cons_of_ne_nil _ (splitOnNl_ne_nil rest), ih, hc]
      rfl
    · simp only [if_neg hc]
      rcases heq : splitOnNl rest with _ | ⟨g, gs⟩
      · exact absurd heq (splitOnNl_ne_nil rest)
      · rw [heq] at ih
        cases gs with
        | nil => simp [joinNl] at ih ⊢; simp [ih]
        | cons g' gs' =>
          rw [joinNl_cons_of_ne_nil _ (by simp)] at ih ⊢
          simp only [List.cons_append, List.cons.injEq, true_and]
          exact ih

theorem splitMessageGo_append (chunkSize : Nat) (rest : List (List Char))
    (cur : List (List Char)) (curLen : Nat) (chunks : List (List Char)) :
    splitMessageGo chunkSize rest cur curLen chunks
      = chunks ++ splitMessageGo chunkSize rest cur curLen [] := by
  induction rest generalizing cur curLen chunks with
  | nil =>
    simp only [splitMessageGo]
    split <;> simp
  | cons line rest' ih =>
    simp only [splitMessageGo]
    split
    · rw [ih _ _ (chunks ++ [joinNl cur]), ih _ _ ([] ++ [joinNl cur])]
      simp
    · rw [ih, ih (cur ++ [line])]

theorem splitMessageGo_ne_nil (chunkSize : Nat) (rest : List (List Char))
    (cur : List (List Char)) (curLen : Nat) (h : cur ≠ []) :
    splitMessageGo chunkSize rest cur curLen [] ≠ [] := by
  induction rest generalizing cur curLen with
  | nil =>
    simp only [splitMessageGo]
    split
    · exact absurd (by assumption) h
    · simp
  | cons line rest' ih =>
    simp only [splitMessageGo]
    split
    · rw [splitMessageGo_append]
      simp
    · exact ih (cur ++ [line]) _ (by simp)

theorem joinNl_append_cons (cur : List (List Char)) (l : List Char)
    (rest : List (List Char)) (h : cur ≠ []) :
    joinNl (cur ++ l :: rest) = joinNl cur ++ '\n' :: joinNl (l :: rest) := by
  induction cur with
  | nil => exact absurd rfl h
  | cons g gs ih =>
    cases gs with
    | nil =>
      rw [List.singleton_append, joinNl_cons_of_ne_nil g (List.cons_ne_nil l rest)]
      simp [joinNl]
    | cons g' gs' =>
      have h1 : joinNl ((g :: g' :: gs') ++ l :: rest)
          = g ++ '\n' :: joinNl ((g' :: gs') ++ l :: rest) := by
        rw [List.cons_append]
        exact joinNl_cons_of_ne_nil g (by simp)
      rw [h1, ih (List.cons_ne_nil g' gs'),
        joinNl_cons_of_ne_nil g (List.cons_ne_nil g' gs')]
      simp

/-- Joining the chunks produced from a non-empty current chunk reproduces the
lines `cur ++ rest`, joined with newlines. -/
theorem joinNl_splitMessageGo (chunkSize : Nat) (rest : List (List Char))
    (cur : List (List Char)) (curLen : Nat) (h : cur ≠ []) :
    joinNl (splitMessageGo chunkSize rest cur curLen [])
      = joinNl (cur ++ rest) := by
  induction rest generalizing cur curLen with
  | nil =>
    simp only [splitMessageGo]
    rw [if_neg h]
    simp [joinNl]
  | cons line rest' ih =>
    simp only [splitMessageGo]
    split
    · rw [splitMessageGo_append]
      simp only [List.nil_append, List.singleton_append]
      rw [joinNl_cons_of_ne_nil _
          (splitMessageGo_ne_nil chunkSize rest' [line] line.length (List.cons_ne_nil line [])),
        ih [line] line.length (List.cons_ne_nil line []),
        List.singleton_append,
        joinNl_append_cons cur line rest' h]
    · rw [ih (cur ++ [line]) _ (by simp), List.append_assoc]
      simp

theorem String.mk_append_mk (a b : List Char) :
    String.mk a ++ String.mk b = String.mk (a ++ b) := rfl

theorem joinWith_nl_map_mk (cs : List (List Char)) :
    joinWith "\n" (cs.map String.mk) = String.mk (joinNl cs) := by
  induction cs with
  | nil => rfl
  | cons g gs ih =>
    cases gs with
    | nil => rfl
    | cons g' gs' =>
      have h3 : joinWith "\n" (String.mk g :: String.mk g' :: gs'.map String.mk)
          = String.mk g ++ "\n" ++ joinWith "\n" (String.mk g' :: gs'.map String.mk) := rfl
      simp only [List.map_cons] at ih ⊢
      rw [h3, ih]
      apply String.ext
      simp only [String.data_append]
      show g ++ "\n".data ++ joinNl (g' :: gs') = joinNl (g :: g' :: gs')
      rw [joinNl_cons_of_ne_nil g (List.cons_ne_nil g' gs')]
      simp [show ("\n".data = ['\n']) from rfl]

/-! #### Claim C2: chunker round-trip -/

/-- C2 counterexample: the claim "for every input text and every positive
budget, joining the chunks with the newline separator reproduces the input
exactly" fails at `text = "abc"`, `budget = 3`: the first overflow test fires
with an empty `current_chunk`, so an empty chunk is emitted first and the
rejoined text gains a leading newline. -/
theorem chunker_roundtrip_cex :
    split_message "abc" 3 = ["", "abc"]
      ∧ joinWith "\n" (split_message "abc" 3) = "\nabc"
      ∧ ("\nabc" : String) ≠ "abc" := by
  refine ⟨by decide, by decide, by decide⟩

/-- C2 (amended): joining `split_message text budget` with the newline
separator reproduces `text` exactly whenever the first line of `text` is
strictly shorter than the budget; when the first line alone meets or exceeds
the budget the result is exactly `"\n" ++ text` (one spurious leading empty
chunk, all lines still in order). -/
theorem chunker_roundtrip_amended (m : String) (b : Nat) :
    joinWith "\n" (split_message m b)
      = if b < firstLineLen m + 1 then "\n" ++ m else m := by
  unfold split_message
  rw [joinWith_nl_map_mk]
  rcases heq : splitOnNl m.data with _ | ⟨l0, ls⟩
  · exact absurd heq (splitOnNl_ne_nil m.data)
  · have hfl : firstLineLen m = l0.length := by
      unfold firstLineLen
      rw [heq]
      rfl
    have hjoin : joinNl (l0 :: ls) = m.data := by
      rw [← heq, joinNl_splitOnNl]
    simp only [splitMessageGo, Nat.zero_add, hfl]
    by_cases hb : b < l0.length + 1
    · rw [if_pos hb, if_pos hb]
      have h1 : joinNl ([] : List (List Char)) = [] := rfl
      rw [h1, splitMessageGo_append]
      have h2 : ([] : List (List Char)) ++ [[]] ++ splitMessageGo b ls [l0] l0.length []
          = [] :: splitMessageGo b ls [l0] l0.length [] := by simp
      rw [h2, joinNl_cons_of_ne_nil _
          (splitMessageGo_ne_nil b ls [l0] l0.length (List.cons_ne_nil l0 [])),
        joinNl_splitMessageGo b ls [l0] l0.length (List.cons_ne_nil l0 []),
        List.singleton_append, hjoin]
      apply String.ext
      simp [String.data_append]
    · rw [if_neg hb, if_neg hb]
      have h2 : ([] : List (List Char)) ++ [l0] = [l0] := by simp
      rw [h2, joinNl_splitMessageGo b ls [l0] _ (List.cons_ne_nil l0 []),
        List.singleton_append, hjoin]

/-! #### Claim C6: chunker budget bound -/

theorem joinNl_append_single_length (cur : List (List Char)) (line : List Char) :
    (joinNl (cur ++ [line])).length ≤ (joinNl cur).length + line.length + 1 := by
  cases cur with
  | nil => simp [joinNl]
  | cons g gs =>
    rw [joinNl_append_cons (g :: gs) line [] (List.cons_ne_nil g gs)]
    simp [joinNl]
    omega

theorem splitMessageGo_bound (b : Nat) (lines0 : List (List Char))
    (hlines : ∀ l ∈ lines0, '\n' ∉ l) :
    ∀ (rest : List (List Char)) (cur : List (List Char)) (curLen : Nat)
      (chunks : List (List Char)),
    (∀ l ∈ cur, l ∈ lines0) → (∀ l ∈ rest, l ∈ lines0) →
    (joinNl cur).length ≤ curLen →
    (2 ≤ cur.length → curLen ≤ b) →
    (∀ c ∈ chunks, c.length ≤ b ∨ ('\n' ∉ c ∧ c ∈ lines0)) →
    ∀ c ∈ splitMessageGo b rest cur curLen chunks,
      c.length ≤ b ∨ ('\n' ∉ c ∧ c ∈ lines0) := by
  have closeOk : ∀ (cur : List (List Char)) (curLen : Nat),
      (∀ l ∈ cur, l ∈ lines0) → (joinNl cur).length ≤ curLen →
      (2 ≤ cur.length → curLen ≤ b) →
      (joinNl cur).length ≤ b ∨ ('\n' ∉ joinNl cur ∧ joinNl cur ∈ lines0) := by
    intro cur curLen hmem hlen h2
    match cur with
    | [] => left; simp [joinNl]
    | [l] =>
      right
      have hl : l ∈ lines0 := hmem l (List.mem_cons_self l [])
      exact ⟨hlines l hl, hl⟩
    | l :: l' :: t =>
      left
      exact le_trans hlen (h2 (by simp))
  intro rest
  induction rest with
  | nil =>
    intro cur curLen chunks hcur _ hlen h2 hchunks c hc
    simp only [splitMessageGo] at hc
    split at hc
    · exact hchunks c hc
    · rcases List.mem_append.mp hc with h | h
      · exact hchunks c h
      · rw [List.mem_singleton.mp h]
        exact closeOk cur curLen hcur hlen h2
  | cons line rest' ih =>
    intro cur curLen chunks hcur hrest hlen h2 hchunks c hc
    have hline : line ∈ lines0 := hrest line (List.mem_cons_self line rest')
    have hrest' : ∀ l ∈ rest', l ∈ lines0 :=
      fun l hl => hrest l (List.mem_cons_of_mem line hl)
    simp only [splitMessageGo] at hc
    split at hc
    · refine ih [line] line.length (chunks ++ [joinNl cur]) ?_ hrest' ?_ ?_ ?_ c hc
      · intro l hl
        rw [List.mem_singleton.mp hl]
        exact hline
      · simp [joinNl]
      · intro habs
        simp at habs
      · intro c' hc'
        rcases List.mem_append.mp hc' with h | h
        · exact hchunks c' h
        · rw [List.mem_singleton.mp h]
          exact closeOk cur curLen hcur hlen h2
    · rename_i hcond
      refine ih (cur ++ [line]) (curLen + line.length + 1) chunks ?_ hrest' ?_ ?_ hchunks c hc
      · intro l hl
        rcases List.mem_append.mp hl with h | h
        · exact hcur l h
        · rw [List.mem_singleton.mp h]
          exact hline
      · exact le_trans (joinNl_append_single_length cur line)
          (by omega)
      · intro _
        omega

/-- C6 (confirmed, strengthened to every budget): every chunk returned by
`split_message` either fits the budget or contains no newline at all, in which
case it is one of the original lines of the input, placed alone as its own
oversized chunk (no line is ever split). -/
theorem chunker_budget_bound (m : String) (b : Nat) :
    ∀ c ∈ split_message m b,
      c.length ≤ b ∨ ('\n' ∉ c.data ∧ c.data ∈ splitOnNl m.data) := by
  intro c hc
  unfold split_message at hc
  rcases List.mem_map.mp hc with ⟨cc, hccmem, hcc⟩
  have h := splitMessageGo_bound b (splitOnNl m.data)
    (fun l hl => splitOnNl_no_newline l hl)
    (splitOnNl m.data) [] 0 []
    (by intro l hl; simp at hl) (fun l hl => hl)
    (by simp [joinNl]) (by intro h2; simp at h2)
    (by intro c' hc'; simp at hc')
    cc hccmem
  have hdata : c.data = cc := by rw [← hcc]
  have hlen : c.length = cc.length := by rw [← hcc]; rfl
  rw [hdata, hlen]
  exact h

/-- Witness for C6 at a concrete oversized line: in
`split_message "ab\ncdef" 3` the chunk `"cdef"` exceeds the budget but is a
whole original line. -/
theorem chunker_budget_bound_witness :
    ("cdef" : String).length ≤ 3
      ∨ ('\n' ∉ ("cdef" : String).data
          ∧ ("cdef" : String).data ∈ splitOnNl ("ab\ncdef" : String).data) :=
  chunker_budget_bound "ab\ncdef" 3 "cdef" (by decide)

/-! ### Events and the Summarizer: `summarize_with_groq` (lines 113-182) -/

inductive EventType where
  | main_category
  | subcategory
  | event
  | nested_event
deriving DecidableEq

/-- One event dictionary as built by `scrape_wikipedia`.  Keys that a given
event type does not carry in the Python dict (`main_category` events have no
`main_category`/`subcategory`/`urls` keys, `subcategory` events have no
`subcategory` key) are modelled as `none` / `[]`. -/
structure Event where
  type : EventType
  main_category : Option String
  subcategory : Option String
  text : String
  urls : List String
deriving DecidableEq

/-- Lines 115-124: render the events to prompt text; a `main_category` event
renders as `"\n**<name>**"`, every other event type as `"- <text>"`. -/
def formattedEvents (events : List Event) : List String :=
  events.foldl
    (fun acc e =>
      match e.type with
      | .main_category => acc ++ ["\n**" ++ e.text ++ "**"]
      | _ => acc ++ ["- " ++ e.text])
    []

/-- Line 126: `events_text = "\n".join(formatted_events)`. -/
def eventsText (events : List Event) : String :=
  joinWith "\n" (formattedEvents events)

/-- Lines 129-148 and 156-160: the prompt template with `today`, `category`
and `chunk` substituted. -/
def promptTemplate (today category chunk : String) : String :=
  "Provide an extremely concise summary of the key events from the given text. Format the summary as follows:\n\n    *Daily summary "
    ++ today
    ++ "*\n\n    *"
    ++ category
    ++ "*\n    • <very brief high level news for this category>\n    • <another brief point if necessary>\n\n    - Use bullet points (•) for individual events or facts.\n    - Keep each bullet point to one line if possible.\n    - Prioritize the most important information.\n    - Use line breaks to separate different categories.\n    - Keep the language concise and unbiased.\n    - Format using Twilio's lightweight markup (use * for bold)\n\n    Here's the text to summarize:\n\n    "
    ++ chunk
    ++ "\n\n    Please provide a well-formatted, extremely concise summary following the instructions above:"

/-- Line 158: `events[0]['text'] if i == 0 else "Continued"`.  The `IndexError`
raised by `events[0]` on an empty list is modelled as `none`. -/
def chunkCategory (events : List Event) (i : Nat) : Option String :=
  if i = 0 then (events.head?).map Event.text else some "Continued"

/-- Lines 154-178: process the chunks in order, carrying the enumeration
index; a provider failure (`groq i prompt = none`, any caught exception) is
replaced by the placeholder `"Error summarizing chunk <i+1>"` and the loop
continues; an `IndexError` while building the prompt aborts the whole call. -/
def summarizeChunks (groq : Nat → String → Option String) (events : List Event)
    (today : String) : List String → Nat → Option (List String)
  | [], _ => some []
  | chunk :: rest, i =>
    match chunkCategory events i with
    | none => none
    | some category =>
      let prompt := promptTemplate today category chunk
      let summary :=
        match groq i prompt with
        | some s => s
        | none => "Error summarizing chunk " ++ toString (i + 1)
      (summarizeChunks groq events today rest (i + 1)).map (fun rest' => summary :: rest')

/-- Line 150: the Summarizer's chunking of the rendered event text with the
fixed budget 4000. -/
def summaryChunks (events : List Event) : List String :=
  split_message (eventsText events) 4000

/-- Model of `summarize_with_groq(events, today)` (lines 113-182), with the provider
call abstracted as the oracle `groq`: format the events, split into chunks of
budget 4000, summarize each chunk in order, join the results with blank
lines.  `none` models the uncaught `IndexError` raised while building the
first prompt when `events` is empty. -/
def summarize_with_groq (groq : Nat → String → Option String)
    (events : List Event) (today : String) : Option String :=
  (summarizeChunks groq events today (summaryChunks events) 0).map
    (fun ss => joinWith "\n\n" ss)

/-! #### Summarizer lemmas -/

/-- The category label substituted for chunk `i` when `events` is non-empty. -/
def categoryAt (events : List Event) (i : Nat) : String :=
  if i = 0 then ((events.head?).map Event.text).getD "" else "Continued"

/-- The prompt sent for chunk `i` with content `chunk`. -/
def promptAt (events : List Event) (today : String) (i : Nat) (chunk : String) : String :=
  promptTemplate today (categoryAt events i) chunk

/-- The per-chunk result: provider text on success, the placeholder on a
caught provider failure. -/
def chunkResult (groq : Nat → String → Option String) (events : List Event)
    (today : String) (i : Nat) (chunk : String) : String :=
  match groq i (promptAt events today i chunk) with
  | some s => s
  | none => "Error summarizing chunk " ++ toString (i + 1)

def mapIdxFrom (f : Nat → α → β) : Nat → List α → List β
  | _, [] => []
  | i, a :: as => f i a :: mapIdxFrom f (i + 1) as

theorem chunkCategory_of_ne_nil {events : List Event} (h : events ≠ []) (i : Nat) :
    chunkCategory events i = some (categoryAt events i) := by
  rcases events with _ | ⟨e, es⟩
  · exact absurd rfl h
  · unfold chunkCategory categoryAt
    split <;> simp

theorem summarizeChunks_eq (groq : Nat → String → Option String)
    (events : List Event) (today : String) (h : events ≠ []) :
    ∀ (chunks : List String) (i : Nat),
    summarizeChunks groq events today chunks i
      = some (mapIdxFrom (chunkResult groq events today) i chunks) := by
  intro chunks
  induction chunks with
  | nil => intro i; rfl
  | cons chunk rest ih =>
    intro i
    simp only [summarizeChunks, chunkCategory_of_ne_nil h i, ih (i + 1), Option.map_some]
    rfl

theorem mapIdxFrom_congr (f g : Nat → α → β) :
    ∀ (l : List α) (i : Nat),
    (∀ (p : Nat) (hp : p < l.length), f (i + p) (l.get ⟨p, hp⟩) = g (i + p) (l.get ⟨p, hp⟩)) →
    mapIdxFrom f i l = mapIdxFrom g i l := by
  intro l
  induction l with
  | nil => intro i _; rfl
  | cons a as ih =>
    intro i hpt
    unfold mapIdxFrom
    have h0 := hpt 0 (by simp)
    simp at h0
    rw [h0]
    rw [ih (i + 1) (fun p hp => by
      have := hpt (p + 1) (by simpa using Nat.succ_lt_succ hp)
      simpa [Nat.add_assoc, Nat.add_comm 1 p] using this)]

/-! #### Claim C10: empty-event precondition of the Summarizer -/

theorem splitMessageGo_ne_nil_of (b : Nat) :
    ∀ (rest cur : List (List Char)) (curLen : Nat) (chunks : List (List Char)),
    rest ≠ [] ∨ cur ≠ [] ∨ chunks ≠ [] →
    splitMessageGo b rest cur curLen chunks ≠ [] := by
  intro rest
  induction rest with
  | nil =>
    intro cur curLen chunks hyp
    simp only [splitMessageGo]
    split
    · rcases hyp with h | h | h
      · exact absurd rfl h
      · exact absurd (by assumption) h
      · exact h
    · simp
  | cons line rest' ih =>
    intro cur curLen chunks _
    simp only [splitMessageGo]
    split
    · exact ih [line] line.length _ (Or.inr (Or.inl (List.cons_ne_nil line [])))
    · exact ih (cur ++ [line]) _ chunks (Or.inr (Or.inl (by simp)))

theorem split_message_ne_nil (m : String) (b : Nat) : split_message m b ≠ [] := by
  unfold split_message
  intro hmap
  exact splitMessageGo_ne_nil_of b (splitOnNl m.data) [] 0 []
    (Or.inl (splitOnNl_ne_nil m.data)) (List.map_eq_nil_iff.mp hmap)

theorem summarizeChunks_isSome (groq : Nat → String → Option String)
    (events : List Event) (today : String) (h : events ≠ []) :
    ∀ (chunks : List String) (i : Nat),
    (summarizeChunks groq events today chunks i).isSome := by
  intro chunks i
  rw [summarizeChunks_eq groq events today h chunks i]
  rfl

/-- C10 (confirmed): the Chunker maps the empty string to the single empty
chunk (with the Summarizer's budget 4000) and never returns an empty chunk
list; hence on an empty event sequence the Summarizer still enters the chunk
loop, evaluates `events[0]` and dies with an index error (modelled `none`),
while on any non-empty event sequence that branch is unreachable and the call
returns a result. -/
theorem summarizer_empty_events (b : Nat) (today : String)
    (groq : Nat → String → Option String) :
    split_message "" 4000 = [""]
      ∧ (∀ m : String, split_message m b ≠ [])
      ∧ summarize_with_groq groq [] today = none
      ∧ (∀ events : List Event, events ≠ [] →
          (summarize_with_groq groq events today).isSome) := by
  refine ⟨by decide, fun m => split_message_ne_nil m b, rfl, ?_⟩
  intro events hev
  unfold summarize_with_groq
  rw [summarizeChunks_eq groq events today hev]
  rfl

/-- Witness for C10: a one-event list clears the precondition and the
Summarizer returns a result. -/
theorem summarizer_empty_events_witness :
    (summarize_with_groq (fun _ _ => some "ok")
      [⟨.main_category, none, none, "Politics", []⟩] "2026-10-12").isSome :=
  (summarizer_empty_events 7 "2026-10-12" (fun _ _ => some "ok")).2.2.2
    [⟨.main_category, none, none, "Politics", []⟩] (by simp)

/-! #### Claim C7: summarizer failure isolation and order preservation -/

/-- C7 (confirmed): on a non-empty event sequence, if the provider call for
chunk `k` fails and every other chunk `i` succeeds with text `r i`, the
Summarizer does not abort: it returns all per-chunk results in chunk order,
with the placeholder `"Error summarizing chunk <k+1>"` substituted at
position `k`, joined by blank lines. -/
theorem summarizer_order_preservation
    (groq : Nat → String → Option String) (events : List Event) (today : String)
    (r : Nat → String) (k : Nat)
    (hev : events ≠ [])
    (hfail : groq k (promptAt events today k ((summaryChunks events).getD k "")) = none)
    (hok : ∀ i, i < (summaryChunks events).length → i ≠ k →
      groq i (promptAt events today i ((summaryChunks events).getD i "")) = some (r i)) :
    summarize_with_groq groq events today
      = some (joinWith "\n\n"
          (mapIdxFrom
            (fun i _ => if i = k then "Error summarizing chunk " ++ toString (k + 1) else r i)
            0 (summaryChunks events))) := by
  unfold summarize_with_groq
  rw [summarizeChunks_eq groq events today hev]
  rw [mapIdxFrom_congr (chunkResult groq events today)
    (fun i _ => if i = k then "Error summarizing chunk " ++ toString (k + 1) else r i)
    (summaryChunks events) 0 ?_]
  · rfl
  · intro p hp
    have hget : (summaryChunks events).get ⟨p, hp⟩ = (summaryChunks events).getD p "" := by
      rw [List.getD_eq_getElem _ _ hp]
      rfl
    simp only [Nat.zero_add, chunkResult, hget]
    by_cases hpk : p = k
    · subst hpk
      rw [hfail]
      simp
    · rw [hok p hp hpk]
      simp [hpk]

/-- Witness for C7: one chunk, whose provider call fails; the output is the
placeholder alone. -/
theorem summarizer_order_preservation_witness :
    summarize_with_groq (fun i _ => if i = 0 then none else some "S")
        [⟨.main_category, none, none, "Politics", []⟩] "2026-10-12"
      = some (joinWith "\n\n"
          (mapIdxFrom
            (fun i _ => if i = 0 then "Error summarizing chunk " ++ toString (0 + 1) else "S")
            0 (summaryChunks [⟨.main_category, none, none, "Politics", []⟩]))) :=
  summarizer_order_preservation (fun i _ => if i = 0 then none else some "S")
    [⟨.main_category, none, none, "Politics", []⟩] "2026-10-12" (fun _ => "S") 0
    (by simp) rfl
    (fun i h1 h2 => by
      have hlen : (summaryChunks [⟨.main_category, none, none, "Politics", []⟩]).length = 1 := by
        decide
      rw [hlen] at h1
      exact absurd (Nat.lt_one_iff.mp h1) h2)

/-! ### Markup tree and the EventExtractor: `scrape_wikipedia` (lines 27-110) -/

/-- A minimal markup node: an element with tag, attributes and children, or a
text fragment.  This models the tree the extractor queries; attribute lookup
is exact-value (the inputs used here carry single-valued `class` attributes,
where this coincides with the library's class matching). -/
inductive Node where
  | elem (tag : String) (attrs : List (String × String)) (children : List Node)
  | text (s : String)

def Node.children : Node → List Node
  | .elem _ _ cs => cs
  | .text _ => []

def Node.tagName : Node → Option String
  | .elem t _ _ => some t
  | .text _ => none

def Node.attr (n : Node) (key : String) : Option String :=
  match n with
  | .elem _ attrs _ => (attrs.find? (fun p => p.1 = key)).map Prod.snd
  | .text _ => none

mutual
/-- All nodes of the subtree rooted at `n` (including `n`) satisfying `p`, in
document (preorder) order: the recursive search behind `find_all`/`find`. -/
def Node.collect (p : Node → Bool) : Node → List Node
  | .text s => if p (.text s) then [.text s] else []
  | .elem t a cs => (if p (.elem t a cs) then [.elem t a cs] else []) ++ Node.collectList p cs

def Node.collectList (p : Node → Bool) : List Node → List Node
  | [] => []
  | n :: ns => Node.collect p n ++ Node.collectList p ns
end

/-- Model of `node.find_all(...)` (recursive, the default): matching descendants of
`n`, excluding `n` itself, in document order. -/
def Node.findAll (p : Node → Bool) (n : Node) : List Node :=
  Node.collectList p n.children

/-- Model of `node.find(...)`: the first matching descendant, if any. -/
def Node.findFirst (p : Node → Bool) (n : Node) : Option Node :=
  (Node.findAll p n).head?

/-- Model of `node.find_all(..., recursive=False)`: matching direct children only. -/
def Node.childrenWhere (p : Node → Bool) (n : Node) : List Node :=
  n.children.filter p

/-- Python `str.strip()`: drop leading and trailing whitespace. -/
def pyStrip (s : String) : String :=
  String.mk (((s.data.dropWhile Char.isWhitespace).reverse.dropWhile Char.isWhitespace).reverse)

mutual
/-- Model of `element.get_text(strip=True)`: the stripped text fragments of the
subtree, concatenated in document order. -/
def Node.getTextStrip : Node → String
  | .text s => pyStrip s
  | .elem _ _ cs => Node.getTextStripList cs

def Node.getTextStripList : List Node → String
  | [] => ""
  | n :: ns => Node.getTextStrip n ++ Node.getTextStripList ns
end

def isTag (t : String) (n : Node) : Bool := n.tagName = some t

/-- An `<a>` with an `href` attribute (`find_all('a', href=True)`). -/
def hasHref (n : Node) : Bool := (n.tagName = some "a") && (n.attr "href").isSome

/-- An `<a class="mw-redirect">` (`find('a', {'class': 'mw-redirect'})`). -/
def isRedirectAnchor (n : Node) : Bool :=
  (n.tagName = some "a") && (n.attr "class" = some "mw-redirect")

/-- Python `href.startswith('http')`. -/
def startsWithHttp (s : String) : Bool :=
  match s.data with
  | 'h' :: 't' :: 't' :: 'p' :: _ => true
  | _ => false

/-- Lines 49-52, `extract_event_info`: stripped text plus all contained
hrefs, each made absolute with the Wikipedia prefix unless it already starts
with `http`. -/
def extract_event_info (element : Node) : String × List String :=
  (element.getTextStrip,
    (element.findAll hasHref).map (fun a =>
      let href := (a.attr "href").getD ""
      if startsWithHttp href then href else "https://en.wikipedia.org" ++ href))

/-- The extractor's mutable traversal state: `current_main_category`,
`current_subcategory` and the accumulated `events` list (lines 45-47). -/
structure ExtState where
  main : Option String
  sub : Option String
  events : List Event
deriving DecidableEq

/-- Lines 89-101: one `nested_event` per direct `li` child of the first `ul`
found inside `item`, carrying the current category context. -/
def nestedEventsOf (st : ExtState) (item : Node) : List Event :=
  match Node.findFirst (isTag "ul") item with
  | some ul =>
    (Node.childrenWhere (isTag "li") ul).map (fun ni =>
      let info := extract_event_info ni
      ⟨.nested_event, st.main, st.sub, info.1, info.2⟩)
  | none => []

/-- Lines 62-101: process one direct `li` child of a section `ul`: a
contained `<b>` makes it a main category (resetting the subcategory), a
contained redirect anchor makes it a subcategory, otherwise it is a plain
event; in every case a nested `ul` then contributes nested events. -/
def processItem (st : ExtState) (item : Node) : ExtState :=
  let st1 : ExtState :=
    match Node.findFirst (isTag "b") item with
    | some bNode =>
      let t := Node.getTextStrip bNode
      ⟨some t, none, st.events ++ [⟨.main_category, none, none, t, []⟩]⟩
    | none =>
      let info := extract_event_info item
      if (Node.findFirst isRedirectAnchor item).isSome then
        ⟨st.main, some info.1, st.events ++ [⟨.subcategory, st.main, none, info.1, info.2⟩]⟩
      else
        ⟨st.main, st.sub, st.events ++ [⟨.event, st.main, st.sub, info.1, info.2⟩]⟩
  ⟨st1.main, st1.sub, st1.events ++ nestedEventsOf st1 item⟩

/-- Lines 55-101: one node of `find_all(['h2', 'ul'])`.  An `h2` only prints
(the date-header test at lines 57-60 `continue`s either way and never emits
events); a `ul` folds `processItem` over its direct `li` children. -/
def processSection (_date : String) (st : ExtState) (sec : Node) : ExtState :=
  if isTag "h2" sec then st
  else if isTag "ul" sec then
    (Node.childrenWhere (isTag "li") sec).foldl processItem st
  else st

/-- The extraction loop of lines 45-103 run over an explicit section list. -/
def extractFromSections (date : String) (sections : List Node) : List Event :=
  (sections.foldl (processSection date) ⟨none, none, []⟩).events

/-- Model of `scrape_wikipedia` (lines 27-110) from the located content container on:
iterate `main_content.find_all(['h2', 'ul'])` — a recursive search, so
nested `ul`s reappear as their own sections — in document order. -/
def scrape_wikipedia (mainContent : Node) (date : String) : List Event :=
  extractFromSections date
    (Node.findAll (fun n => isTag "h2" n || isTag "ul" n) mainContent)

/-! #### Claim C3: end-to-end extraction count -/

/-- The markup of the C3 scenario: one main category "Politics" with two
items and one subcategory holding one nested item. -/
def politicsMarkup : Node :=
  .elem "div" [("class", "current-events-content description")] [
    .elem "ul" [] [
      .elem "li" [] [.elem "b" [] [.text "Politics"]],
      .elem "li" [] [.text "item1"],
      .elem "li" [] [.text "item2"],
      .elem "li" [] [
        .elem "a" [("class", "mw-redirect"), ("href", "/wiki/B")] [.text "B"],
        .elem "ul" [] [.elem "li" [] [.text "n1"]]]]]

/-- C3 (code bug): on the claimed markup the extractor returns 6 events, not
5: the recursive `find_all(['h2', 'ul'])` revisits the nested `ul` as a
top-level section, so the nested item "n1" is emitted twice — once as a
`nested_event` (line 94) and again as a plain `event` (line 80). -/
theorem extractor_nested_duplicate :
    scrape_wikipedia politicsMarkup "2026 October 12"
      = [⟨.main_category, none, none, "Politics", []⟩,
         ⟨.event, some "Politics", none, "item1", []⟩,
         ⟨.event, some "Politics", none, "item2", []⟩,
         ⟨.subcategory, some "Politics", none, "Bn1", ["https://en.wikipedia.org/wiki/B"]⟩,
         ⟨.nested_event, some "Politics", some "Bn1", "n1", []⟩,
         ⟨.event, some "Politics", some "Bn1", "n1", []⟩]
      ∧ (scrape_wikipedia politicsMarkup "2026 October 12").length ≠ 5 := by
  refine ⟨by decide, by decide⟩

/-! #### Claim C5: context propagation -/

/-- The observable shape of an event: its type and text. -/
def eventShape (e : Event) : EventType × String := (e.type, e.text)

/-- How one emitted event updates the pair
`(current_main_category, current_subcategory)` (lines 63-78): a main category
installs itself and clears the subcategory, a subcategory installs itself,
plain and nested events leave the context unchanged. -/
def ctxStep (ctx : Option String × Option String) (s : EventType × String) :
    Option String × Option String :=
  match s.1 with
  | .main_category => (some s.2, none)
  | .subcategory => (ctx.1, some s.2)
  | _ => ctx

def ctxFold (ctx : Option String × Option String)
    (l : List (EventType × String)) : Option String × Option String :=
  l.foldl ctxStep ctx

/-- Every plain or nested event in the list records exactly the running
context at its position, starting from `ctx`. -/
def CtxOk : (Option String × Option String) → List Event → Prop
  | _, [] => True
  | ctx, e :: rest =>
    ((e.type = .event ∨ e.type = .nested_event) →
      (e.main_category, e.subcategory) = ctx)
    ∧ CtxOk (ctxStep ctx (eventShape e)) rest

theorem ctxFold_inert (ctx : Option String × Option String) :
    ∀ l : List (EventType × String),
    (∀ s ∈ l, s.1 = .event ∨ s.1 = .nested_event) → ctxFold ctx l = ctx := by
  intro l
  induction l generalizing ctx with
  | nil => intro _; rfl
  | cons s rest ih =>
    intro h
    have hs := h s (List.mem_cons_self s rest)
    have hstep : ctxStep ctx s = ctx := by
      rcases hs with h1 | h1 <;> simp [ctxStep, h1]
    unfold ctxFold at ih ⊢
    rw [List.foldl_cons, hstep]
    exact ih ctx (fun x hx => h x (List.mem_cons_of_mem s hx))

theorem ctxOk_append (evs Δ : List Event) :
    ∀ ctx, CtxOk ctx (evs ++ Δ) ↔
      (CtxOk ctx evs ∧ CtxOk (ctxFold ctx (evs.map eventShape)) Δ) := by
  induction evs with
  | nil => intro ctx; simp [CtxOk, ctxFold]
  | cons e rest ih =>
    intro ctx
    simp only [List.cons_append, CtxOk, List.map_cons, List.append_eq]
    rw [ih (ctxStep ctx (eventShape e))]
    unfold ctxFold
    rw [List.foldl_cons]
    tauto

theorem ctxOk_of_inert (ctx : Option String × Option String) :
    ∀ l : List Event,
    (∀ e ∈ l, (e.type = .event ∨ e.type = .nested_event)
      ∧ (e.main_category, e.subcategory) = ctx) →
    CtxOk ctx l := by
  intro l
  induction l with
  | nil => intro _; trivial
  | cons e rest ih =>
    intro h
    have he := h e (List.mem_cons_self e rest)
    refine ⟨fun _ => he.2, ?_⟩
    have hstep : ctxStep ctx (eventShape e) = ctx := by
      rcases he.1 with h1 | h1 <;> simp [ctxStep, eventShape, h1]
    rw [hstep]
    exact ih (fun x hx => h x (List.mem_cons_of_mem e hx))

theorem ctxOk_getElem : ∀ (evs : List Event) (ctx : Option String × Option String),
    CtxOk ctx evs → ∀ (j : Nat) (e : Event), evs[j]? = some e →
    (e.type = .event ∨ e.type = .nested_event) →
    (e.main_category, e.subcategory) = ctxFold ctx ((evs.take j).map eventShape) := by
  intro evs
  induction evs with
  | nil => intro ctx _ j e hj; simp at hj
  | cons e0 rest ih =>
    intro ctx hok j e hj hty
    cases j with
    | zero =>
      simp at hj
      subst hj
      simpa [ctxFold] using hok.1 hty
    | succ j' =>
      simp only [List.getElem?_cons_succ] at hj
      have hrec := ih (ctxStep ctx (eventShape e0)) hok.2 j' e hj hty
      rw [List.take_succ_cons, List.map_cons]
      unfold ctxFold at hrec ⊢
      rw [List.foldl_cons]
      exact hrec

/-- The extraction invariant: the current context equals the fold of the
emitted shapes, and every emitted plain/nested event recorded the running
context at its position. -/
def ExtInv (st : ExtState) : Prop :=
  ctxFold (none, none) (st.events.map eventShape) = (st.main, st.sub)
  ∧ CtxOk (none, none) st.events

theorem nestedEventsOf_mem (st : ExtState) (item : Node) :
    ∀ e ∈ nestedEventsOf st item,
      e.type = .nested_event ∧ e.main_category = st.main ∧ e.subcategory = st.sub := by
  intro e he
  unfold nestedEventsOf at he
  rcases hfind : Node.findFirst (isTag "ul") item with _ | ul
  · rw [hfind] at he
    simp at he
  · rw [hfind] at he
    rcases List.mem_map.mp he with ⟨ni, _, hni⟩
    rw [← hni]
    exact ⟨rfl, rfl, rfl⟩

theorem extInv_extend (st : ExtState) (e0 : Event) (m' s' : Option String)
    (nested : List Event)
    (hinv : ExtInv st)
    (hctx : ctxStep (st.main, st.sub) (eventShape e0) = (m', s'))
    (he0 : (e0.type = .event ∨ e0.type = .nested_event) →
      (e0.main_category, e0.subcategory) = (st.main, st.sub))
    (hnested : ∀ e ∈ nested,
      e.type = .nested_event ∧ e.main_category = m' ∧ e.subcategory = s') :
    ExtInv ⟨m', s', (st.events ++ [e0]) ++ nested⟩ := by
  obtain ⟨hfold, hok⟩ := hinv
  have hshapes : ∀ s ∈ nested.map eventShape, s.1 = .event ∨ s.1 = .nested_event := by
    intro s hs
    rcases List.mem_map.mp hs with ⟨e, he, hse⟩
    rw [← hse]
    exact Or.inr (hnested e he).1
  have hfold1 : ctxFold (none, none) ((st.events ++ [e0]).map eventShape) = (m', s') := by
    rw [List.map_append]
    unfold ctxFold at hfold ⊢
    rw [List.foldl_append, hfold]
    simpa using hctx
  constructor
  · rw [List.map_append]
    unfold ctxFold
    rw [List.foldl_append]
    have := hfold1
    unfold ctxFold at this
    rw [this]
    exact ctxFold_inert (m', s') (nested.map eventShape) hshapes
  · rw [ctxOk_append]
    constructor
    · rw [ctxOk_append]
      refine ⟨hok, ?_⟩
      rw [hfold]
      exact ⟨he0, trivial⟩
    · rw [hfold1]
      exact ctxOk_of_inert (m', s') nested
        (fun e he => ⟨Or.inr (hnested e he).1, by
          rw [(hnested e he).2.1, (hnested e he).2.2]⟩)

theorem processItem_eq_main (st : ExtState) (item bNode : Node)
    (hb : Node.findFirst (isTag "b") item = some bNode) :
    processItem st item =
      ⟨some (Node.getTextStrip bNode), none,
        (st.events ++ [⟨.main_category, none, none, Node.getTextStrip bNode, []⟩])
          ++ nestedEventsOf
              ⟨some (Node.getTextStrip bNode), none,
                st.events ++ [⟨.main_category, none, none, Node.getTextStrip bNode, []⟩]⟩
              item⟩ := by
  unfold processItem
  rw [hb]

theorem processItem_eq_sub (st : ExtState) (item : Node)
    (hb : Node.findFirst (isTag "b") item = none)
    (hr : (Node.findFirst isRedirectAnchor item).isSome = true) :
    processItem st item =
      ⟨st.main, some (extract_event_info item).1,
        (st.events ++ [⟨.subcategory, st.main, none,
            (extract_event_info item).1, (extract_event_info item).2⟩])
          ++ nestedEventsOf
              ⟨st.main, some (extract_event_info item).1,
                st.events ++ [⟨.subcategory, st.main, none,
                  (extract_event_info item).1, (extract_event_info item).2⟩]⟩
              item⟩ := by
  unfold processItem
  rw [hb, if_pos hr]

theorem processItem_eq_event (st : ExtState) (item : Node)
    (hb : Node.findFirst (isTag "b") item = none)
    (hr : (Node.findFirst isRedirectAnchor item).isSome = false) :
    processItem st item =
      ⟨st.main, st.sub,
        (st.events ++ [⟨.event, st.main, st.sub,
            (extract_event_info item).1, (extract_event_info item).2⟩])
          ++ nestedEventsOf
              ⟨st.main, st.sub,
                st.events ++ [⟨.event, st.main, st.sub,
                  (extract_event_info item).1, (extract_event_info item).2⟩]⟩
              item⟩ := by
  unfold processItem
  rw [hb, if_neg (by simp [hr])]

theorem processItem_inv (st : ExtState) (item : Node) (hinv : ExtInv st) :
    ExtInv (processItem st item) := by
  rcases hb : Node.findFirst (isTag "b") item with _ | bNode
  · cases hr : (Node.findFirst isRedirectAnchor item).isSome
    · rw [processItem_eq_event st item hb hr]
      exact extInv_extend st _ st.main st.sub _ hinv
        (by simp [ctxStep, eventShape])
        (fun _ => rfl)
        (fun e he => nestedEventsOf_mem _ item e he)
    · rw [processItem_eq_sub st item hb hr]
      exact extInv_extend st _ st.main (some (extract_event_info item).1) _ hinv
        (by simp [ctxStep, eventShape])
        (by intro h; rcases h with h | h <;> exact absurd h (by simp))
        (fun e he => nestedEventsOf_mem _ item e he)
  · rw [processItem_eq_main st item bNode hb]
    exact extInv_extend st _ (some (Node.getTextStrip bNode)) none _ hinv
      (by simp [ctxStep, eventShape])
      (by intro h; rcases h with h | h <;> exact absurd h (by simp))
      (fun e he => nestedEventsOf_mem _ item e he)

theorem foldl_processItem_inv (items : List Node) :
    ∀ st, ExtInv st → ExtInv (items.foldl processItem st) := by
  induction items with
  | nil => intro st h; exact h
  | cons it rest ih =>
    intro st h
    exact ih _ (processItem_inv st it h)

theorem processSection_inv (date : String) (st : ExtState) (sec : Node)
    (hinv : ExtInv st) : ExtInv (processSection date st sec) := by
  unfold processSection
  split_ifs
  · exact hinv
  · exact foldl_processItem_inv _ st hinv
  · exact hinv

theorem extractFromSections_inv (date : String) (sections : List Node) :
    ExtInv (sections.foldl (processSection date) ⟨none, none, []⟩) := by
  have hgen : ∀ st, ExtInv st → ExtInv (sections.foldl (processSection date) st) := by
    induction sections with
    | nil => intro st h; exact h
    | cons s rest ih =>
      intro st h
      exact ih _ (processSection_inv date st s h)
  exact hgen _ ⟨rfl, trivial⟩

theorem ctxFold_sub_none (base : Option String × Option String) :
    ∀ l : List (EventType × String), base.2 = none →
    (∀ s ∈ l, s.1 ≠ .subcategory) → (ctxFold base l).2 = none := by
  intro l
  induction l generalizing base with
  | nil => intro h _; exact h
  | cons s rest ih =>
    intro hbase hl
    unfold ctxFold at ih ⊢
    rw [List.foldl_cons]
    refine ih (ctxStep base s) ?_ (fun x hx => hl x (List.mem_cons_of_mem s hx))
    have hs := hl s (List.mem_cons_self s rest)
    rcases hts : s.1 with _ | _ | _ | _
    · simp [ctxStep, hts]
    · exact absurd hts hs
    · simp [ctxStep, hts, hbase]
    · simp [ctxStep, hts, hbase]

theorem ctxFold_sub_none_of_main (T : List (EventType × String))
    (base : Option String × Option String) (i : Nat) (hi : i < T.length)
    (hmain : T[i].1 = .main_category)
    (hnosub : ∀ (l : Nat) (hl : l < T.length), i < l → T[l].1 ≠ .subcategory) :
    (ctxFold base T).2 = none := by
  have h1 : ctxFold base T = ctxFold (ctxFold base (T.take (i + 1))) (T.drop (i + 1)) := by
    unfold ctxFold
    rw [← List.foldl_append, List.take_append_drop]
  rw [h1]
  apply ctxFold_sub_none
  · have h2 : T.take (i + 1) = T.take i ++ [T[i]] := by
      rw [List.take_succ, List.getElem?_eq_getElem hi]
      rfl
    rw [h2]
    unfold ctxFold
    rw [List.foldl_append]
    simp [ctxStep, hmain]
  · intro s hs
    rcases List.mem_iff_getElem.mp hs with ⟨p, hp, hsp⟩
    rw [List.getElem_drop] at hsp
    have hbound : i + 1 + p < T.length := by
      have hp' := hp
      simp only [List.length_drop] at hp'
      omega
    rw [← hsp]
    exact hnosub (i + 1 + p) hbound (by omega)

theorem context_at_index (evs : List Event) (hok : CtxOk (none, none) evs)
    (j : Nat) (shapes : List (EventType × String))
    (hshape : evs.map eventShape = shapes)
    (ty : EventType) (tx : String)
    (hj : shapes[j]? = some (ty, tx)) (hty : ty = .event)
    (ctxv : Option String × Option String)
    (hctxv : ctxFold (none, none) (shapes.take j) = ctxv) :
    evs[j]?.map (fun e => (e.main_category, e.subcategory)) = some ctxv := by
  have hj' : evs[j]?.map eventShape = some (ty, tx) := by
    rw [← List.getElem?_map, hshape, hj]
  rcases Option.map_eq_some'.mp hj' with ⟨e, he, hse⟩
  have hty' : e.type = .event := by
    have hfst := congrArg Prod.fst hse
    simp only [eventShape] at hfst
    rw [hfst, hty]
  have hctx := ctxOk_getElem evs (none, none) hok j e he (Or.inl hty')
  rw [List.map_take, hshape, hctxv] at hctx
  rw [he, Option.map_some']
  exact congrArg some hctx

/-- C5 (confirmed), in two parts.  Part 1: whenever the extractor emits
exactly the shapes [MainCategory a, Item x, Subcategory b, Item y,
MainCategory c, Item z], the three items carry the contexts
(a, nil), (a, b) and (c, nil) respectively.  Part 2 (the general reset law):
any plain event that follows a MainCategory event with no intervening
Subcategory event carries a nil subcategory. -/
theorem extractor_context_propagation :
    (∀ (sections : List Node) (d a x b y c z : String),
      (extractFromSections d sections).map eventShape
        = [(.main_category, a), (.event, x), (.subcategory, b),
           (.event, y), (.main_category, c), (.event, z)] →
      (extractFromSections d sections)[1]?.map
          (fun e => (e.main_category, e.subcategory)) = some (some a, none)
      ∧ (extractFromSections d sections)[3]?.map
          (fun e => (e.main_category, e.subcategory)) = some (some a, some b)
      ∧ (extractFromSections d sections)[5]?.map
          (fun e => (e.main_category, e.subcategory)) = some (some c, none))
    ∧
    (∀ (sections : List Node) (d : String) (i j : Nat) (em ej : Event),
      (extractFromSections d sections)[i]? = some em → em.type = .main_category →
      i < j →
      (∀ (l : Nat) (el : Event), i < l → l < j →
        (extractFromSections d sections)[l]? = some el → el.type ≠ .subcategory) →
      (extractFromSections d sections)[j]? = some ej → ej.type = .event →
      ej.subcategory = none) := by
  constructor
  · intro sections d a x b y c z hshape
    obtain ⟨hfold, hok⟩ := extractFromSections_inv d sections
    refine ⟨?_, ?_, ?_⟩
    · exact context_at_index _ hok 1 _ hshape .event x rfl rfl _ rfl
    · exact context_at_index _ hok 3 _ hshape .event y rfl rfl _ rfl
    · exact context_at_index _ hok 5 _ hshape .event z rfl rfl _ rfl
  · intro sections d i j em ej hi hmty hij hnosub hj hjty
    obtain ⟨hfold, hok⟩ := extractFromSections_inv d sections
    have hctx := ctxOk_getElem _ (none, none) hok j ej hj (Or.inl hjty)
    obtain ⟨hjlt, hjeq⟩ := List.getElem?_eq_some_iff.mp hj
    obtain ⟨hilt', hieq⟩ := List.getElem?_eq_some_iff.mp hi
    have hTlen : (((extractFromSections d sections).take j).map eventShape).length = j := by
      simp only [List.length_map, List.length_take]
      omega
    have hsub : (ctxFold (none, none)
        (((extractFromSections d sections).take j).map eventShape)).2 = none := by
      apply ctxFold_sub_none_of_main _ _ i (by omega)
      · have : (((extractFromSections d sections).take j).map eventShape)[i]
            = eventShape ((extractFromSections d sections)[i]) := by
          simp [List.getElem_map, List.getElem_take]
        rw [this, hieq, eventShape]
        exact hmty
      · intro l hl hil
        rw [hTlen] at hl
        have hllt : l < (extractFromSections d sections).length := by omega
        have : (((extractFromSections d sections).take j).map eventShape)[l]
            = eventShape ((extractFromSections d sections)[l]) := by
          simp [List.getElem_map, List.getElem_take]
        rw [this, eventShape]
        exact hnosub l _ hil hl (List.getElem?_eq_getElem hllt)
    have hsnd := congrArg Prod.snd hctx
    simp only at hsnd
    rw [hsnd]
    exact hsub

/-- Concrete section list realizing the C5 shape
[Main "A", Item "x", Sub "B", Item "y", Main "C", Item "z"]. -/
def ctxSections : List Node :=
  [.elem "ul" [] [
    .elem "li" [] [.elem "b" [] [.text "A"]],
    .elem "li" [] [.text "x"],
    .elem "li" [] [.elem "a" [("class", "mw-redirect"), ("href", "/wiki/B")] [.text "B"]],
    .elem "li" [] [.text "y"],
    .elem "li" [] [.elem "b" [] [.text "C"]],
    .elem "li" [] [.text "z"]]]

/-- Witness for C5, both parts, at the concrete section list. -/
theorem extractor_context_propagation_witness :
    ((extractFromSections "2026-10-12" ctxSections)[1]?.map
        (fun e => (e.main_category, e.subcategory)) = some (some "A", none)
      ∧ (extractFromSections "2026-10-12" ctxSections)[3]?.map
        (fun e => (e.main_category, e.subcategory)) = some (some "A", some "B")
      ∧ (extractFromSections "2026-10-12" ctxSections)[5]?.map
        (fun e => (e.main_category, e.subcategory)) = some (some "C", none))
    ∧ (⟨.event, some "C", none, "z", []⟩ : Event).subcategory = none := by
  constructor
  · exact extractor_context_propagation.1 ctxSections "2026-10-12" "A" "x" "B" "y" "C" "z"
      (by decide)
  · exact extractor_context_propagation.2 ctxSections "2026-10-12" 4 5
      ⟨.main_category, none, none, "C", []⟩ ⟨.event, some "C", none, "z", []⟩
      (by decide) rfl (by omega)
      (fun l el h1 h2 _ => absurd h2 (by omega))
      (by decide) rfl

/-! ### Message delivery: `send_whatsapp_message` (lines 271-309),
`check_message_status` (lines 311-328) and the `__main__` loop
(lines 330-372) -/

/-- The outcome of one provider send attempt: success with a message sid and
an opaque response dump (`sent_message.__dict__`), a `TwilioRestException`
(code, message, details — the message string also standing for `str(e)`), or
any other exception, which the retry loop does not catch. -/
inductive AttemptResult where
  | ok (sid : String) (responseDump : String)
  | twilioErr (code : Nat) (msg : String) (details : String)
  | otherErr (msg : String)
deriving DecidableEq

/-- Python `to_number[-4:]`. -/
def lastFour (s : String) : String :=
  String.mk (s.data.drop (s.data.length - 4))

/-- Line 277: `masked_number = f"xxx-xxx-{to_number[-4:]}"`. -/
def maskedNumber (to_number : String) : String :=
  "xxx-xxx-" ++ lastFour to_number

/-- Line 278. -/
def logAttempting (n : Nat) (masked : String) : String :=
  "Attempting to send " ++ toString n ++ " messages to " ++ masked

/-- Line 285. -/
def logSending (i n : Nat) (masked : String) : String :=
  "Sending message " ++ toString i ++ "/" ++ toString n ++ " to " ++ masked

/-- Line 286: the debug dump of the request payload — note it embeds the raw
`to_number`, not `masked_number`. -/
def logPayload (to_number : String) (message : String) : String :=
  "Request payload: from_='whatsapp:+14155238886', to='whatsapp:" ++ to_number
    ++ "', body_length=" ++ toString message.length

/-- Line 287. -/
def logContent (message : String) : String :=
  "Message content: " ++ message

/-- Line 294. -/
def logSent (i n : Nat) (masked sid : String) : String :=
  "Message " ++ toString i ++ "/" ++ toString n ++ " sent successfully to "
    ++ masked ++ ". SID: " ++ sid

/-- Line 295. -/
def logResponse (dump : String) : String :=
  "Full Twilio API response: " ++ dump

/-- Line 299. -/
def logAttemptFailed (rc i n : Nat) (masked err : String) : String :=
  "Attempt " ++ toString rc ++ " failed to send message " ++ toString i ++ "/"
    ++ toString n ++ " to " ++ masked ++ ". Error: " ++ err

/-- Lines 300-302. -/
def logErrCode (code : Nat) : String := "Twilio error code: " ++ toString code

def logErrMsg (msg : String) : String := "Twilio error message: " ++ msg

def logErrDetails (details : String) : String := "Twilio error details: " ++ details

/-- Line 304 (`max_retries` is 3). -/
def logExhausted (i n : Nat) (masked : String) : String :=
  "Failed to send message " ++ toString i ++ "/" ++ toString n ++ " to "
    ++ masked ++ " after 3 attempts."

/-- Line 308. -/
def logBatchDone (k n : Nat) (masked : String) : String :=
  "Successfully sent " ++ toString k ++ "/" ++ toString n ++ " messages to " ++ masked

/-- Accumulated effects of a `send_whatsapp_message` call: the collected
sids, the log lines in order, the sleeps performed (seconds each), the
number of provider send calls, and — as ghost instrumentation not present in
the Python state — the attempt count of every message that entered the retry
loop. -/
structure DState where
  sids : List String
  logs : List String
  sleeps : List Nat
  sendCalls : Nat
  attemptsPerMsg : List Nat
deriving DecidableEq

inductive MsgOutcome where
  | done
  | exhausted
  | raised (msg : String)
  | fellThrough
deriving DecidableEq

/-- The `while retry_count < max_retries` loop of lines 283-306 for one
message: `attempt rc` is the provider result of the 0-based try `rc`;
`fuel = max_retries - retry_count` bounds the loop (`fellThrough` marks the
loop exiting with no try left, unreachable from `fuel = 3`).  Each try logs
the attempt and the request payload, then calls the provider: on success the
sid is recorded and the loop breaks; on a `TwilioRestException` the retry
counter advances and the failure is logged, then either the whole function
returns (counter reached `max_retries` = 3) or the thread sleeps 5 seconds;
any other exception propagates.  The returned `Nat` is the number of tries
consumed. -/
def sendMsgRetry (attempt : Nat → AttemptResult) (to_number masked : String)
    (i n : Nat) (message : String) : Nat → Nat → DState → DState × MsgOutcome × Nat
  | 0, rc, st => (st, .fellThrough, rc)
  | fuel + 1, rc, st =>
    let st1 : DState :=
      { st with
        logs := st.logs ++ [logSending i n masked, logPayload to_number message,
          logContent message],
        sendCalls := st.sendCalls + 1 }
    match attempt rc with
    | .ok sid dump =>
      ({ st1 with
          sids := st1.sids ++ [sid],
          logs := st1.logs ++ [logSent i n masked sid, logResponse dump] }, .done, rc + 1)
    | .twilioErr code msg details =>
      let st2 : DState :=
        { st1 with
          logs := st1.logs ++ [logAttemptFailed (rc + 1) i n masked msg,
            logErrCode code, logErrMsg msg, logErrDetails details] }
      if rc + 1 = 3 then
        ({ st2 with logs := st2.logs ++ [logExhausted i n masked] }, .exhausted, rc + 1)
      else
        sendMsgRetry attempt to_number masked i n message fuel (rc + 1)
          { st2 with sleeps := st2.sleeps ++ [5] }
    | .otherErr msg => (st1, .raised msg, rc + 1)

/-- The Python return of `send_whatsapp_message`: a normal `(success, sids)`
return, or an exception that escaped the function. -/
inductive SendExit where
  | ret (success : Bool)
  | raised (msg : String)
deriving DecidableEq

/-- The per-message loop of lines 280-307: `attempt i rc` is the provider
outcome of the 0-based try `rc` for the 1-based message `i`.  A message that
exhausts its retries makes the whole call return `(False, sids)` at once
(line 305), skipping every later message. -/
def sendLoop (attempt : Nat → Nat → AttemptResult) (to_number masked : String)
    (n : Nat) : List String → Nat → DState → DState × SendExit
  | [], _, st =>
    ({ st with logs := st.logs ++ [logBatchDone st.sids.length n masked] }, .ret true)
  | message :: rest, i, st =>
    match sendMsgRetry (attempt i) to_number masked i n message 3 0 st with
    | (st', .done, a) =>
      sendLoop attempt to_number masked n rest (i + 1)
        { st' with attemptsPerMsg := st'.attemptsPerMsg ++ [a] }
    | (st', .exhausted, a) =>
      ({ st' with attemptsPerMsg := st'.attemptsPerMsg ++ [a] }, .ret false)
    | (st', .raised m, a) =>
      ({ st' with attemptsPerMsg := st'.attemptsPerMsg ++ [a] }, .raised m)
    | (st', .fellThrough, a) =>
      sendLoop attempt to_number masked n rest (i + 1)
        { st' with attemptsPerMsg := st'.attemptsPerMsg ++ [a] }

/-- Model of `send_whatsapp_message(to_number, messages)` (lines 271-309) with the
provider abstracted as `attempt`. -/
def send_whatsapp_message (attempt : Nat → Nat → AttemptResult)
    (to_number : String) (messages : List String) : DState × SendExit :=
  sendLoop attempt to_number (maskedNumber to_number) messages.length messages 1
    ⟨[], [logAttempting messages.length (maskedNumber to_number)], [], 0, []⟩

/-- One provider status fetch: a message object with a status string, an
opaque dump and an optional error code/message, or a `TwilioRestException`. -/
inductive FetchResult where
  | fetched (status : String) (dump : String) (errorCode : Option (Nat × String))
  | exc (msg : String) (code : Nat) (details : String)
deriving DecidableEq

/-- Model of `check_message_status(message_sid)` (lines 311-328): returns its log
lines and the status (`none` models the `return None` of the except arm). -/
def check_message_status (fetch : String → FetchResult) (sid : String) :
    List String × Option String :=
  match fetch sid with
  | .fetched status dump ec =>
    let logs1 := ["Message " ++ sid ++ " status: " ++ status,
      "Full message details: " ++ dump]
    let logs2 :=
      match ec with
      | some (code, emsg) =>
        logs1 ++ ["Message " ++ sid ++ " has error code: " ++ toString code,
          "Error message: " ++ emsg]
      | none => logs1
    (logs2, some status)
  | .exc emsg code details =>
    (["Error checking message status for SID " ++ sid ++ ": " ++ emsg,
      "Error code: " ++ toString code,
      "Error details: " ++ details], none)

/-- Python `str(status)` as interpolated into the `__main__` log lines. -/
def optStr : Option String → String
  | some s => s
  | none => "None"

/-- Line 343. -/
def sendingToLine (number : String) : String :=
  "Sending messages to " ++ number

/-- Line 347. -/
def sendingMsgLine (i n : Nat) (number : String) : String :=
  "Sending message " ++ toString i ++ "/" ++ toString n ++ " to " ++ number

/-- Lines 354/356 — they embed the raw `number`. -/
def statusLine (sid number : String) (status : Option String) : String :=
  "Message " ++ sid ++ " to " ++ number ++ " status: " ++ optStr status

/-- Line 359. -/
def failedSendLine (i : Nat) (number : String) : String :=
  "Failed to send message " ++ toString i ++ " to " ++ number

/-- Line 362. -/
def sentCountLine (k n : Nat) (number : String) : String :=
  "Sent " ++ toString k ++ "/" ++ toString n ++ " messages to " ++ number

/-- Line 366. -/
def failedCountLine (k : Nat) (number : String) : String :=
  "Failed to deliver " ++ toString k ++ " messages to " ++ number

/-- One element of `delivery_status` (lines 344-358): a polled status —
possibly `None` — or the literal `False` appended per collected sid after a
failed batch. -/
inductive DeliveryMark where
  | polled (status : Option String)
  | failedMark
deriving DecidableEq

/-- Lines 351-356: poll every collected sid in order; returns the marks, the
log lines and the number of status checks. -/
def pollSids (fetch : String → FetchResult) (number : String) :
    List String → List DeliveryMark × List String × Nat
  | [] => ([], [], 0)
  | sid :: rest =>
    let r := check_message_status fetch sid
    let tail := pollSids fetch number rest
    let warn := if r.2 ≠ some "delivered" then [statusLine sid number r.2] else []
    (DeliveryMark.polled r.2 :: tail.1,
      (r.1 ++ [statusLine sid number r.2] ++ warn) ++ tail.2.1,
      tail.2.2 + 1)

/-- The per-recipient aggregate of the `__main__` loop. -/
structure RecipientRecord where
  marks : List DeliveryMark
  logs : List String
  polls : Nat
  sendCalls : Nat
  attemptsPerMsg : List Nat
deriving DecidableEq

/-- Python `for message in messages` at line 346 passes each segment string
to `send_whatsapp_message`, whose own loop then iterates that STRING —
yielding its characters as length-one messages.  This models that call-site
type confusion faithfully. -/
def pyStrIter (s : String) : List String :=
  s.data.map (fun c => String.mk [c])

/-- Lines 346-359: the per-recipient segment loop.  `attempt i j rc` is the
provider outcome for segment `i` (1-based), character-message `j` (1-based),
try `rc` (0-based).  A batch returning `False` appends one `False` mark per
collected sid and moves on to the next segment; an escaped exception aborts
(it is caught only at line 369). -/
def recipientLoop (attempt : Nat → Nat → Nat → AttemptResult)
    (fetch : String → FetchResult) (number : String) (n : Nat) :
    List String → Nat → RecipientRecord → RecipientRecord × Option String
  | [], _, acc => (acc, none)
  | message :: rest, i, acc =>
    let sendRes := send_whatsapp_message (attempt i) number (pyStrIter message)
    let acc1 : RecipientRecord :=
      { acc with
        logs := acc.logs ++ [sendingMsgLine i n number] ++ sendRes.1.logs,
        sendCalls := acc.sendCalls + sendRes.1.sendCalls,
        attemptsPerMsg := acc.attemptsPerMsg ++ sendRes.1.attemptsPerMsg }
    match sendRes.2 with
    | .ret true =>
      let p := pollSids fetch number sendRes.1.sids
      recipientLoop attempt fetch number n rest (i + 1)
        { acc1 with
          marks := acc1.marks ++ p.1,
          logs := acc1.logs ++ p.2.1,
          polls := acc1.polls + p.2.2 }
    | .ret false =>
      recipientLoop attempt fetch number n rest (i + 1)
        { acc1 with
          marks := acc1.marks
            ++ List.replicate sendRes.1.sids.length DeliveryMark.failedMark,
          logs := acc1.logs ++ [failedSendLine i number] }
    | .raised m => (acc1, some m)

/-- Lines 342-366 for one recipient: run the segment loop, then log the
delivered count (lines 361-366). -/
def recipientRun (attempt : Nat → Nat → Nat → AttemptResult)
    (fetch : String → FetchResult) (number : String) (messages : List String) :
    RecipientRecord × Option String :=
  let r := recipientLoop attempt fetch number messages.length messages 1
    ⟨[], [sendingToLine number], 0, 0, []⟩
  match r.2 with
  | some m => (r.1, some m)
  | none =>
    let successful := r.1.marks.countP
      (fun m => m = DeliveryMark.polled (some "delivered"))
    let n := messages.length
    let logs1 := r.1.logs ++ [sentCountLine successful n number]
    let logs2 := if successful < n then logs1 ++ [failedCountLine (n - successful) number]
      else logs1
    ({ r.1 with logs := logs2 }, none)

/-- The loop over `phone_numbers` (line 342); an escaped exception aborts the
remaining recipients (caught at line 369). -/
def deliverAllGo (attempt : String → Nat → Nat → Nat → AttemptResult)
    (fetch : String → FetchResult) (messages : List String) :
    List String → List (String × RecipientRecord)
      → List (String × RecipientRecord) × Option String
  | [], acc => (acc, none)
  | number :: rest, acc =>
    let r := recipientRun (attempt number) fetch number messages
    match r.2 with
    | some m => (acc ++ [(number, r.1)], some m)
    | none => deliverAllGo attempt fetch messages rest (acc ++ [(number, r.1)])

/-- Python `summary.split('\n\n')` over characters (line 340): leftmost,
non-overlapping split on a blank line. -/
def splitOnBlank : List Char → List (List Char)
  | [] => [[]]
  | '\n' :: '\n' :: rest => [] :: splitOnBlank rest
  | c :: rest =>
    match splitOnBlank rest with
    | [] => [[c]]
    | g :: gs => (c :: g) :: gs

def splitBlankLine (s : String) : List String :=
  (splitOnBlank s.data).map String.mk

/-- The delivery section of `__main__` (lines 335-366): split the summary on
blank lines and run the per-recipient loop for each configured number. -/
def mainDeliver (attempt : String → Nat → Nat → Nat → AttemptResult)
    (fetch : String → FetchResult) (numbers : List String) (summary : String) :
    List (String × RecipientRecord) × Option String :=
  deliverAllGo attempt fetch (splitBlankLine summary) numbers []

/-! #### Claim C1: send/poll counts for a single-chunk payload -/

def okAttempt : String → Nat → Nat → Nat → AttemptResult :=
  fun _ _ _ _ => .ok "SM1" "resp"

def deliveredFetch : String → FetchResult :=
  fun _ => .fetched "delivered" "dump" none

def c1Run : List (String × RecipientRecord) × Option String :=
  mainDeliver okAttempt deliveredFetch ["+15550000001", "+15550000002"] "Hi"

/-- C1 (code bug): the payload "Hi" fits one chunk under the 1600-character
channel budget, yet the run for 2 recipients performs 4 provider send calls
and 4 status polls (2 per recipient = one per CHARACTER), not 2: the
`__main__` loop never partitions the payload with `split_message` at all (it
splits on blank lines), and line 348 passes a single string where
`send_whatsapp_message` expects a list, so the function iterates the string
character by character. -/
theorem delivery_send_count_bug :
    split_message "Hi" 1600 = ["Hi"]
      ∧ (c1Run.1.map (fun p => p.2.sendCalls)).sum = 4
      ∧ (c1Run.1.map (fun p => p.2.polls)).sum = 4
      ∧ (c1Run.1.map (fun p => p.2.sendCalls)).sum ≠ 2 := by
  refine ⟨by decide, by decide, by decide, by decide⟩

/-! #### Claim C4: per-recipient fail isolation -/

def c4Attempt : String → Nat → Nat → Nat → AttemptResult :=
  fun number _seg msgIdx _rc =>
    if number = "+15550000001" then
      if msgIdx = 2 then .twilioErr 21211 "boom" "details"
      else .ok ("SM" ++ toString msgIdx) "resp"
    else .ok ("SM" ++ toString msgIdx) "resp"

def c4Run : List (String × RecipientRecord) × Option String :=
  mainDeliver c4Attempt deliveredFetch ["+15550000001", "+15550000002"] "abcd"

/-- C4 counterexample: recipient R1 exhausts its retries on partition 2 of 4
(every retry fails) while R2 succeeds everywhere.  Fail-fast holds (R1's
attempt profile is [1, 3] — partitions 3 and 4 are never attempted) and R2
receives all 4 partitions with 4 polls; but R1's record gains exactly ONE
Failed mark — `[False] * len(message_sids)`, one per sid collected BEFORE the
failure — not one Failed receipt per remaining partition (2). -/
theorem delivery_failfast_cex :
    c4Run.1.map (fun p => (p.2.marks, p.2.attemptsPerMsg, p.2.polls))
      = [([DeliveryMark.failedMark], [1, 3], 0),
         (List.replicate 4 (DeliveryMark.polled (some "delivered")), [1, 1, 1, 1], 4)]
      ∧ ([DeliveryMark.failedMark] : List DeliveryMark).length ≠ 4 - 2 := by
  refine ⟨by decide, by decide⟩

def emptyDState : DState := ⟨[], [], [], 0, []⟩

theorem sendMsgRetry_state (attempt : Nat → AttemptResult) (tn mk msg : String)
    (i n : Nat) : ∀ (fuel rc : Nat) (st : DState),
    (sendMsgRetry attempt tn mk i n msg fuel rc st).1.sids
        = st.sids ++ (sendMsgRetry attempt tn mk i n msg fuel rc emptyDState).1.sids
    ∧ (sendMsgRetry attempt tn mk i n msg fuel rc st).1.attemptsPerMsg
        = st.attemptsPerMsg
    ∧ (sendMsgRetry attempt tn mk i n msg fuel rc st).2
        = (sendMsgRetry attempt tn mk i n msg fuel rc emptyDState).2 := by
  intro fuel
  induction fuel with
  | zero => intro rc st; simp [sendMsgRetry, emptyDState]
  | succ f ih =>
    intro rc st
    rcases hA : attempt rc with ⟨sid, dump⟩ | ⟨code, m, d⟩ | m
    · simp [sendMsgRetry, hA, emptyDState]
    · by_cases h3 : rc + 1 = 3
      · simp [sendMsgRetry, hA, h3, emptyDState]
      · simp only [sendMsgRetry, hA, h3, if_false]
        obtain ⟨ihs, iha, iho⟩ := ih (rc + 1)
          { st with
            logs := (st.logs ++ [logSending i n mk, logPayload tn msg, logContent msg])
              ++ [logAttemptFailed (rc + 1) i n mk m, logErrCode code, logErrMsg m,
                logErrDetails d],
            sendCalls := st.sendCalls + 1,
            sleeps := st.sleeps ++ [5] }
        obtain ⟨ihs', iha', iho'⟩ := ih (rc + 1)
          { emptyDState with
            logs := (emptyDState.logs ++ [logSending i n mk, logPayload tn msg,
              logContent msg])
              ++ [logAttemptFailed (rc + 1) i n mk m, logErrCode code, logErrMsg m,
                logErrDetails d],
            sendCalls := emptyDState.sendCalls + 1,
            sleeps := emptyDState.sleeps ++ [5] }
        refine ⟨?_, ?_, ?_⟩
        · rw [ihs, ihs']
          simp [emptyDState]
        · rw [iha]
        · rw [iho, iho']
    · simp [sendMsgRetry, hA, emptyDState]

theorem sendMsgRetry_done_sid (attempt : Nat → AttemptResult) (tn mk msg : String)
    (i n : Nat) : ∀ (fuel rc : Nat),
    (sendMsgRetry attempt tn mk i n msg fuel rc emptyDState).2.1 = .done →
    ∃ sid, (sendMsgRetry attempt tn mk i n msg fuel rc emptyDState).1.sids = [sid] := by
  intro fuel
  induction fuel with
  | zero => intro rc h; simp [sendMsgRetry] at h
  | succ f ih =>
    intro rc h
    rcases hA : attempt rc with ⟨sid, dump⟩ | ⟨code, m, d⟩ | m
    · exact ⟨sid, by simp [sendMsgRetry, hA, emptyDState]⟩
    · by_cases h3 : rc + 1 = 3
      · simp [sendMsgRetry, hA, h3] at h
      · simp only [sendMsgRetry, hA, h3, if_false] at h ⊢
        obtain ⟨ihs, _, iho⟩ := sendMsgRetry_state attempt tn mk msg i n f (rc + 1)
          { emptyDState with
            logs := (emptyDState.logs ++ [logSending i n mk, logPayload tn msg,
              logContent msg])
              ++ [logAttemptFailed (rc + 1) i n mk m, logErrCode code, logErrMsg m,
                logErrDetails d],
            sendCalls := emptyDState.sendCalls + 1,
            sleeps := emptyDState.sleeps ++ [5] }
        rw [iho] at h
        obtain ⟨sid, hsid⟩ := ih (rc + 1) h
        refine ⟨sid, ?_⟩
        rw [ihs, hsid]
        simp [emptyDState]
    · simp [sendMsgRetry, hA] at h

theorem sendMsgRetry_exhausted_sids (attempt : Nat → AttemptResult)
    (tn mk msg : String) (i n : Nat) : ∀ (fuel rc : Nat),
    (sendMsgRetry attempt tn mk i n msg fuel rc emptyDState).2.1 = .exhausted →
    (sendMsgRetry attempt tn mk i n msg fuel rc emptyDState).1.sids = [] := by
  intro fuel
  induction fuel with
  | zero => intro rc h; simp [sendMsgRetry] at h
  | succ f ih =>
    intro rc h
    rcases hA : attempt rc with ⟨sid, dump⟩ | ⟨code, m, d⟩ | m
    · simp [sendMsgRetry, hA] at h
    · by_cases h3 : rc + 1 = 3
      · simp [sendMsgRetry, hA, h3, emptyDState]
      · simp only [sendMsgRetry, hA, h3, if_false] at h ⊢
        obtain ⟨ihs, _, iho⟩ := sendMsgRetry_state attempt tn mk msg i n f (rc + 1)
          { emptyDState with
            logs := (emptyDState.logs ++ [logSending i n mk, logPayload tn msg,
              logContent msg])
              ++ [logAttemptFailed (rc + 1) i n mk m, logErrCode code, logErrMsg m,
                logErrDetails d],
            sendCalls := emptyDState.sendCalls + 1,
            sleeps := emptyDState.sleeps ++ [5] }
        rw [iho] at h
        rw [ihs, ih (rc + 1) h]
        simp [emptyDState]
    · simp [sendMsgRetry, hA] at h

theorem sendLoop_failfast (attempt : Nat → Nat → AttemptResult) (tn mk : String)
    (n : Nat) : ∀ (pre : List String) (bad : String) (post : List String)
      (i : Nat) (st : DState),
    (∀ (j : Nat) (hj : j < pre.length),
      (sendMsgRetry (attempt (i + j)) tn mk (i + j) n (pre.get ⟨j, hj⟩) 3 0
        emptyDState).2.1 = .done) →
    (sendMsgRetry (attempt (i + pre.length)) tn mk (i + pre.length) n bad 3 0
      emptyDState).2.1 = .exhausted →
    (sendLoop attempt tn mk n (pre ++ bad :: post) i st).2 = .ret false
    ∧ (sendLoop attempt tn mk n (pre ++ bad :: post) i st).1.sids.length
        = st.sids.length + pre.length
    ∧ (sendLoop attempt tn mk n (pre ++ bad :: post) i st).1.attemptsPerMsg.length
        = st.attemptsPerMsg.length + pre.length + 1 := by
  intro pre
  induction pre with
  | nil =>
    intro bad post i st _ hbad
    simp only [List.length_nil, Nat.add_zero] at hbad
    rcases hr : sendMsgRetry (attempt i) tn mk i n bad 3 0 st with ⟨st', out, a⟩
    obtain ⟨hs, ha, ho⟩ := sendMsgRetry_state (attempt i) tn mk bad i n 3 0 st
    rw [hr] at hs ha ho
    have hout : out = .exhausted := by
      have hfst := congrArg Prod.fst ho
      simp at hfst
      rw [hfst, hbad]
    subst hout
    have hsids : st'.sids = st.sids := by
      have hs' : st'.sids = st.sids
          ++ (sendMsgRetry (attempt i) tn mk i n bad 3 0 emptyDState).1.sids := hs
      rw [hs', sendMsgRetry_exhausted_sids (attempt i) tn mk bad i n 3 0 hbad]
      simp
    have ha' : st'.attemptsPerMsg = st.attemptsPerMsg := ha
    have hloop : sendLoop attempt tn mk n ([] ++ bad :: post) i st
        = ({ st' with attemptsPerMsg := st'.attemptsPerMsg ++ [a] }, .ret false) := by
      simp only [List.nil_append, sendLoop, hr]
    refine ⟨?_, ?_, ?_⟩
    · rw [hloop]
    · rw [hloop]
      simp [hsids]
    · rw [hloop]
      simp [ha']
  | cons m0 pre' ih =>
    intro bad post i st hpre hbad
    rcases hr : sendMsgRetry (attempt i) tn mk i n m0 3 0 st with ⟨st', out, a⟩
    obtain ⟨hs, ha, ho⟩ := sendMsgRetry_state (attempt i) tn mk m0 i n 3 0 st
    rw [hr] at hs ha ho
    have h0 := hpre 0 (by simp)
    simp only [List.get, Nat.add_zero] at h0
    have hout : out = .done := by
      have hfst := congrArg Prod.fst ho
      simp at hfst
      rw [hfst, h0]
    subst hout
    obtain ⟨sid, hsid⟩ := sendMsgRetry_done_sid (attempt i) tn mk m0 i n 3 0 h0
    have hsids : st'.sids = st.sids ++ [sid] := by
      have hs' : st'.sids = st.sids
          ++ (sendMsgRetry (attempt i) tn mk i n m0 3 0 emptyDState).1.sids := hs
      rw [hs', hsid]
    have ha' : st'.attemptsPerMsg = st.attemptsPerMsg := ha
    have hpre' : ∀ (j : Nat) (hj : j < pre'.length),
        (sendMsgRetry (attempt (i + 1 + j)) tn mk (i + 1 + j) n (pre'.get ⟨j, hj⟩) 3 0
          emptyDState).2.1 = .done := by
      intro j hj
      have hstep := hpre (j + 1) (by simp; omega)
      simp only [List.get] at hstep
      have harith : i + (j + 1) = i + 1 + j := by omega
      rw [harith] at hstep
      exact hstep
    have hbad' : (sendMsgRetry (attempt (i + 1 + pre'.length)) tn mk
        (i + 1 + pre'.length) n bad 3 0 emptyDState).2.1 = .exhausted := by
      have harith : i + (m0 :: pre').length = i + 1 + pre'.length := by simp; omega
      rw [harith] at hbad
      exact hbad
    obtain ⟨c1, c2, c3⟩ := ih bad post (i + 1)
      { st' with attemptsPerMsg := st'.attemptsPerMsg ++ [a] } hpre' hbad'
    have hloop : sendLoop attempt tn mk n ((m0 :: pre') ++ bad :: post) i st
        = sendLoop attempt tn mk n (pre' ++ bad :: post) (i + 1)
          { st' with attemptsPerMsg := st'.attemptsPerMsg ++ [a] } := by
      simp only [List.cons_append, sendLoop, hr, List.append_eq]
    refine ⟨?_, ?_, ?_⟩
    · rw [hloop]
      exact c1
    · rw [hloop, c2]
      simp only [hsids, List.length_append, List.length_cons, List.length_nil]
      omega
    · rw [hloop, c3]
      simp only [ha', List.length_append, List.length_cons, List.length_nil]
      omega

theorem deliverAllGo_map (attempt : String → Nat → Nat → Nat → AttemptResult)
    (fetch : String → FetchResult) (messages : List String) :
    ∀ (numbers : List String) (acc : List (String × RecipientRecord)),
    (∀ nb ∈ numbers, (recipientRun (attempt nb) fetch nb messages).2 = none) →
    deliverAllGo attempt fetch messages numbers acc
      = (acc ++ numbers.map
          (fun nb => (nb, (recipientRun (attempt nb) fetch nb messages).1)), none) := by
  intro numbers
  induction numbers with
  | nil => intro acc _; simp [deliverAllGo]
  | cons nb rest ih =>
    intro acc hall
    have hnb := hall nb (List.mem_cons_self nb rest)
    simp only [deliverAllGo, hnb]
    rw [ih (acc ++ [(nb, (recipientRun (attempt nb) fetch nb messages).1)])
      (fun x hx => hall x (List.mem_cons_of_mem nb hx))]
    simp

/-- C4 (corrected).  Part 1: when the 1-based partition `k = |pre| + 1` of
the batch `pre ++ bad :: post` exhausts its retries and all earlier
partitions succeed, `send_whatsapp_message` returns `(False, sids)` at once:
only the first `k` partitions ever enter the retry loop, the collected sids
are exactly one per partition before `k`, and the `[False] * len(message_sids)`
marks the caller then records number `|pre| = k - 1` — one per partition sent
BEFORE the failure, not one per remaining partition.  Part 2 (isolation):
when no provider call raises a non-Twilio exception, the delivery loop's
output is an independent per-recipient map, so one recipient's failures
cannot affect another's deliveries. -/
theorem delivery_failfast_amended :
    (∀ (attempt : Nat → Nat → AttemptResult) (tn : String)
      (pre : List String) (bad : String) (post : List String),
      (∀ (j : Nat) (hj : j < pre.length),
        (sendMsgRetry (attempt (1 + j)) tn (maskedNumber tn) (1 + j)
          (pre ++ bad :: post).length (pre.get ⟨j, hj⟩) 3 0 emptyDState).2.1 = .done) →
      (sendMsgRetry (attempt (1 + pre.length)) tn (maskedNumber tn) (1 + pre.length)
        (pre ++ bad :: post).length bad 3 0 emptyDState).2.1 = .exhausted →
      (send_whatsapp_message attempt tn (pre ++ bad :: post)).2 = .ret false
      ∧ (send_whatsapp_message attempt tn (pre ++ bad :: post)).1.attemptsPerMsg.length
          = pre.length + 1
      ∧ (List.replicate
          (send_whatsapp_message attempt tn (pre ++ bad :: post)).1.sids.length
          DeliveryMark.failedMark).length = pre.length)
    ∧
    (∀ (attempt : String → Nat → Nat → Nat → AttemptResult)
      (fetch : String → FetchResult) (numbers : List String) (summary : String),
      (∀ nb ∈ numbers,
        (recipientRun (attempt nb) fetch nb (splitBlankLine summary)).2 = none) →
      mainDeliver attempt fetch numbers summary
        = (numbers.map (fun nb =>
            (nb, (recipientRun (attempt nb) fetch nb (splitBlankLine summary)).1)),
          none)) := by
  constructor
  · intro attempt tn pre bad post hpre hbad
    obtain ⟨c1, c2, c3⟩ := sendLoop_failfast attempt tn (maskedNumber tn)
      (pre ++ bad :: post).length pre bad post 1
      ⟨[], [logAttempting (pre ++ bad :: post).length (maskedNumber tn)], [], 0, []⟩
      hpre hbad
    refine ⟨c1, ?_, ?_⟩
    · unfold send_whatsapp_message
      simpa using c3
    · unfold send_whatsapp_message
      simp only [List.length_replicate]
      simpa using c2
  · intro attempt fetch numbers summary hall
    unfold mainDeliver
    rw [deliverAllGo_map attempt fetch (splitBlankLine summary) numbers [] hall]
    simp

/-- Witness for C4 (amended), both parts, at the counterexample scenario. -/
theorem delivery_failfast_amended_witness :
    ((send_whatsapp_message (c4Attempt "+15550000001" 1) "+15550000001"
        ["a", "b", "c", "d"]).2 = .ret false
      ∧ (send_whatsapp_message (c4Attempt "+15550000001" 1) "+15550000001"
          ["a", "b", "c", "d"]).1.attemptsPerMsg.length = 2
      ∧ (List.replicate
          (send_whatsapp_message (c4Attempt "+15550000001" 1) "+15550000001"
            ["a", "b", "c", "d"]).1.sids.length DeliveryMark.failedMark).length = 1)
    ∧ mainDeliver c4Attempt deliveredFetch ["+15550000001", "+15550000002"] "abcd"
        = ([("+15550000001",
              (recipientRun (c4Attempt "+15550000001") deliveredFetch "+15550000001"
                (splitBlankLine "abcd")).1),
            ("+15550000002",
              (recipientRun (c4Attempt "+15550000002") deliveredFetch "+15550000002"
                (splitBlankLine "abcd")).1)], none) := by
  constructor
  · have h := delivery_failfast_amended.1 (c4Attempt "+15550000001" 1) "+15550000001"
      ["a"] "b" ["c", "d"]
      (by intro j hj
          have hj0 : j = 0 := by
            simpa [Nat.lt_one_iff] using hj
          subst hj0
          show (sendMsgRetry (c4Attempt "+15550000001" 1 (1 + 0)) "+15550000001"
            (maskedNumber "+15550000001") (1 + 0) (["a"] ++ ["b", "c", "d"]).length
            "a" 3 0 emptyDState).2.1 = .done
          decide)
      (by decide)
    simpa using h
  · exact delivery_failfast_amended.2 c4Attempt deliveredFetch
      ["+15550000001", "+15550000002"] "abcd"
      (by intro nb hnb; rcases List.mem_cons.mp hnb with h | h
          · subst h; decide
          · rcases List.mem_cons.mp h with h' | h'
            · subst h'; decide
            · simp at h')

/-! #### Claim C8: bounded retry with fixed delay -/

/-- C8 (confirmed): for one message the retry loop makes at most 3 provider
attempts, sleeping a fixed 5 seconds between consecutive attempts (exactly
`attempts - 1` sleeps, whatever the outcome); a successful attempt ends the
loop at once and appends the provider-assigned sid; only Twilio errors are
retried — every attempt before the last was a `TwilioRestException`, retried
uniformly, while any other exception ends the loop immediately by
propagating; the loop never falls through without a verdict. -/
theorem delivery_retry_policy (attempt : Nat → AttemptResult)
    (tn mk msg : String) (i n : Nat) (st : DState) :
    (sendMsgRetry attempt tn mk i n msg 3 0 st).2.2 ≤ 3
    ∧ (sendMsgRetry attempt tn mk i n msg 3 0 st).1.sleeps
        = st.sleeps
          ++ List.replicate ((sendMsgRetry attempt tn mk i n msg 3 0 st).2.2 - 1) 5
    ∧ ((sendMsgRetry attempt tn mk i n msg 3 0 st).2.1 = .done →
        ∃ sid dump,
          attempt ((sendMsgRetry attempt tn mk i n msg 3 0 st).2.2 - 1) = .ok sid dump
          ∧ (sendMsgRetry attempt tn mk i n msg 3 0 st).1.sids = st.sids ++ [sid])
    ∧ ((sendMsgRetry attempt tn mk i n msg 3 0 st).2.1 = .exhausted →
        (sendMsgRetry attempt tn mk i n msg 3 0 st).2.2 = 3)
    ∧ (∀ m, (sendMsgRetry attempt tn mk i n msg 3 0 st).2.1 = .raised m →
        attempt ((sendMsgRetry attempt tn mk i n msg 3 0 st).2.2 - 1) = .otherErr m)
    ∧ (∀ rc, rc + 1 < (sendMsgRetry attempt tn mk i n msg 3 0 st).2.2 →
        ∃ code m d, attempt rc = .twilioErr code m d)
    ∧ (sendMsgRetry attempt tn mk i n msg 3 0 st).2.1 ≠ .fellThrough := by
  rcases h0 : attempt 0 with ⟨s0, d0⟩ | ⟨c0, em0, dd0⟩ | m0
  · refine ⟨by simp [sendMsgRetry, h0], by simp [sendMsgRetry, h0], ?_, ?_, ?_, ?_, ?_⟩
    · intro _
      exact ⟨s0, d0, by simp [sendMsgRetry, h0], by simp [sendMsgRetry, h0]⟩
    · intro h
      simp [sendMsgRetry, h0] at h
    · intro m hm
      simp [sendMsgRetry, h0] at hm
    · intro rc hrc
      simp [sendMsgRetry, h0] at hrc
    · simp [sendMsgRetry, h0]
  · rcases h1 : attempt 1 with ⟨s1, d1⟩ | ⟨c1, em1, dd1⟩ | m1
    · refine ⟨by simp [sendMsgRetry, h0, h1],
        by simp [sendMsgRetry, h0, h1, List.replicate], ?_, ?_, ?_, ?_, ?_⟩
      · intro _
        exact ⟨s1, d1, by simp [sendMsgRetry, h0, h1], by simp [sendMsgRetry, h0, h1]⟩
      · intro h
        simp [sendMsgRetry, h0, h1] at h
      · intro m hm
        simp [sendMsgRetry, h0, h1] at hm
      · intro rc hrc
        simp [sendMsgRetry, h0, h1] at hrc
        have hrc0 : rc = 0 := by omega
        subst hrc0
        exact ⟨c0, em0, dd0, h0⟩
      · simp [sendMsgRetry, h0, h1]
    · rcases h2 : attempt 2 with ⟨s2, d2⟩ | ⟨c2, em2, dd2⟩ | m2
      · refine ⟨by simp [sendMsgRetry, h0, h1, h2],
          by simp [sendMsgRetry, h0, h1, h2, List.replicate], ?_, ?_, ?_, ?_, ?_⟩
        · intro _
          exact ⟨s2, d2, by simp [sendMsgRetry, h0, h1, h2],
            by simp [sendMsgRetry, h0, h1, h2]⟩
        · intro h
          simp [sendMsgRetry, h0, h1, h2] at h
        · intro m hm
          simp [sendMsgRetry, h0, h1, h2] at hm
        · intro rc hrc
          simp [sendMsgRetry, h0, h1, h2] at hrc
          match rc, hrc with
          | 0, _ => exact ⟨c0, em0, dd0, h0⟩
          | 1, _ => exact ⟨c1, em1, dd1, h1⟩
        · simp [sendMsgRetry, h0, h1, h2]
      · refine ⟨by simp [sendMsgRetry, h0, h1, h2],
          by simp [sendMsgRetry, h0, h1, h2, List.replicate], ?_, ?_, ?_, ?_, ?_⟩
        · intro h
          simp [sendMsgRetry, h0, h1, h2] at h
        · intro _
          simp [sendMsgRetry, h0, h1, h2]
        · intro m hm
          simp [sendMsgRetry, h0, h1, h2] at hm
        · intro rc hrc
          simp [sendMsgRetry, h0, h1, h2] at hrc
          match rc, hrc with
          | 0, _ => exact ⟨c0, em0, dd0, h0⟩
          | 1, _ => exact ⟨c1, em1, dd1, h1⟩
        · simp [sendMsgRetry, h0, h1, h2]
      · refine ⟨by simp [sendMsgRetry, h0, h1, h2],
          by simp [sendMsgRetry, h0, h1, h2, List.replicate], ?_, ?_, ?_, ?_, ?_⟩
        · intro h
          simp [sendMsgRetry, h0, h1, h2] at h
        · intro h
          simp [sendMsgRetry, h0, h1, h2] at h
        · intro m hm
          simp [sendMsgRetry, h0, h1, h2] at hm
          subst hm
          simp [sendMsgRetry, h0, h1, h2]
        · intro rc hrc
          simp [sendMsgRetry, h0, h1, h2] at hrc
          match rc, hrc with
          | 0, _ => exact ⟨c0, em0, dd0, h0⟩
          | 1, _ => exact ⟨c1, em1, dd1, h1⟩
        · simp [sendMsgRetry, h0, h1, h2]
    · refine ⟨by simp [sendMsgRetry, h0, h1],
        by simp [sendMsgRetry, h0, h1, List.replicate], ?_, ?_, ?_, ?_, ?_⟩
      · intro h
        simp [sendMsgRetry, h0, h1] at h
      · intro h
        simp [sendMsgRetry, h0, h1] at h
      · intro m hm
        simp [sendMsgRetry, h0, h1] at hm
        subst hm
        simp [sendMsgRetry, h0, h1]
      · intro rc hrc
        simp [sendMsgRetry, h0, h1] at hrc
        have hrc0 : rc = 0 := by omega
        subst hrc0
        exact ⟨c0, em0, dd0, h0⟩
      · simp [sendMsgRetry, h0, h1]
  · refine ⟨by simp [sendMsgRetry, h0], by simp [sendMsgRetry, h0], ?_, ?_, ?_, ?_, ?_⟩
    · intro h
      simp [sendMsgRetry, h0] at h
    · intro h
      simp [sendMsgRetry, h0] at h
    · intro m hm
      simp [sendMsgRetry, h0] at hm
      subst hm
      simp [sendMsgRetry, h0]
    · intro rc hrc
      simp [sendMsgRetry, h0] at hrc
    · simp [sendMsgRetry, h0]

/-- Witness for C8: first try a Twilio error, second try a success — two
attempts, one 5-second sleep, the sid returned. -/
theorem delivery_retry_policy_witness :
    (sendMsgRetry (fun rc => if rc = 0 then .twilioErr 1 "e" "d" else .ok "SM9" "r")
        "+15550000001" "xxx-xxx-0001" 1 1 "Hi" 3 0 emptyDState).2.2 ≤ 3
      ∧ (sendMsgRetry (fun rc => if rc = 0 then .twilioErr 1 "e" "d" else .ok "SM9" "r")
          "+15550000001" "xxx-xxx-0001" 1 1 "Hi" 3 0 emptyDState).1.sleeps
        = emptyDState.sleeps ++ List.replicate
            ((sendMsgRetry (fun rc => if rc = 0 then .twilioErr 1 "e" "d" else .ok "SM9" "r")
              "+15550000001" "xxx-xxx-0001" 1 1 "Hi" 3 0 emptyDState).2.2 - 1) 5 :=
  ⟨(delivery_retry_policy (fun rc => if rc = 0 then .twilioErr 1 "e" "d" else .ok "SM9" "r")
      "+15550000001" "xxx-xxx-0001" "Hi" 1 1 emptyDState).1,
   (delivery_retry_policy (fun rc => if rc = 0 then .twilioErr 1 "e" "d" else .ok "SM9" "r")
      "+15550000001" "xxx-xxx-0001" "Hi" 1 1 emptyDState).2.1⟩

/-! #### Claim C9: recipient redaction in logs -/

/-- Whether `needle` occurs contiguously inside `hay`. -/
def strContains (hay needle : String) : Bool :=
  decide (needle.data <:+: hay.data)

set_option maxRecDepth 4000 in
/-- C9 counterexample: in a successful two-character send to
"+13042164370", the logs of `send_whatsapp_message` contain a line with the
FULL recipient number — the request-payload debug line of line 286 — so the
claim that the full number never appears in any delivery log line is false. -/
theorem delivery_redaction_cex :
    ((send_whatsapp_message (fun _ _ => .ok "SM1" "resp") "+13042164370"
      ["Hi"]).1.logs.any (fun l => strContains l "+13042164370")) = true := by
  decide

theorem strContains_of_parts (hay needle : String) (s t : List Char)
    (h : s ++ needle.data ++ t = hay.data) : strContains hay needle = true := by
  simp only [strContains, decide_eq_true_eq]
  exact ⟨s, t, h⟩

theorem contains_false_of_not_mem (hay needle : String) (c : Char) (cs : List Char)
    (hn : needle.data = c :: cs) (hc : c ∉ hay.data) : strContains hay needle = false := by
  simp only [strContains, decide_eq_false_iff_not]
  intro hinf
  rcases hinf with ⟨s, t, hst⟩
  apply hc
  rw [← hst, hn]
  simp

theorem isDigit_ne_plus {c : Char} (h : c.isDigit = true) : c ≠ '+' := by
  intro he
  rw [he] at h
  exact absurd h (by decide)

/-- C9 (amended): for phone-number-shaped recipients — a '+' followed by at
least four digits — the delivery log lines rendered through `masked_number`
(the batch announcement of line 278 and the per-attempt line of line 285)
never contain the full number, only its last four digits; but the
request-payload debug line (line 286) inside `send_whatsapp_message` and the
orchestration log lines of `__main__` (line 343 and kin) embed the full
recipient number. -/
theorem delivery_redaction_amended (tn : String) (cs : List Char)
    (htn : tn.data = '+' :: cs) (hcs : ∀ c ∈ cs, c.isDigit = true)
    (hlen : 4 ≤ cs.length) (message : String) (i n : Nat)
    (hi : ∀ c ∈ (toString i).data, c.isDigit = true)
    (hn : ∀ c ∈ (toString n).data, c.isDigit = true) :
    strContains (logPayload tn message) tn = true
    ∧ strContains (sendingToLine tn) tn = true
    ∧ strContains (logSending i n (maskedNumber tn)) tn = false
    ∧ strContains (logAttempting n (maskedNumber tn)) tn = false := by
  have hmask : '+' ∉ (maskedNumber tn).data := by
    simp only [maskedNumber, String.data_append]
    intro hmem
    rcases List.mem_append.mp hmem with h | h
    · exact absurd h (by decide)
    · have hsub : (lastFour tn).data ⊆ cs := by
        have hdata : (lastFour tn).data = tn.data.drop (tn.data.length - 4) := rfl
        rw [hdata, htn]
        have harith : ('+' :: cs).length - 4 = (cs.length - 4) + 1 := by
          simp only [List.length_cons]
          omega
        rw [harith, List.drop_succ_cons]
        exact List.drop_subset _ _
      exact absurd (hcs '+' (hsub h)) (by decide)
  refine ⟨?_, ?_, ?_, ?_⟩
  · apply strContains_of_parts _ _
      ("Request payload: from_='whatsapp:+14155238886', to='whatsapp:" : String).data
      (("', body_length=" ++ toString message.length) : String).data
    simp [logPayload, String.data_append, List.append_assoc]
  · apply strContains_of_parts _ _ ("Sending messages to " : String).data []
    simp [sendingToLine, String.data_append]
  · apply contains_false_of_not_mem _ _ '+' cs htn
    intro hmem
    simp only [logSending, String.data_append, List.mem_append] at hmem
    rcases hmem with ((((h | h) | h) | h) | h) | h
    · exact absurd h (by decide)
    · exact isDigit_ne_plus (hi '+' h) rfl
    · exact absurd h (by decide)
    · exact isDigit_ne_plus (hn '+' h) rfl
    · exact absurd h (by decide)
    · exact hmask h
  · apply contains_false_of_not_mem _ _ '+' cs htn
    intro hmem
    simp only [logAttempting, String.data_append, List.mem_append] at hmem
    rcases hmem with ((h | h) | h) | h
    · exact absurd h (by decide)
    · exact isDigit_ne_plus (hn '+' h) rfl
    · exact absurd h (by decide)
    · exact hmask h

/-- Witness for C9 (amended) at the real recipient number "+13042164370". -/
theorem delivery_redaction_amended_witness :
    strContains (logPayload "+13042164370" "Hi") "+13042164370" = true
    ∧ strContains (sendingToLine "+13042164370") "+13042164370" = true
    ∧ strContains (logSending 1 2 (maskedNumber "+13042164370")) "+13042164370" = false
    ∧ strContains (logAttempting 2 (maskedNumber "+13042164370")) "+13042164370" = false :=
  delivery_redaction_amended "+13042164370"
    ['1', '3', '0', '4', '2', '1', '6', '4', '3', '7', '0']
    rfl (by decide) (by decide) "Hi" 1 2 (by decide) (by decide)
